import Mathlib

/-!
Verification of the Mint-to-Monarch CSV converter (`src/monarch_converter.py`)
against its natural-language specification.

The program is embedded shallowly: a polars `DataFrame` becomes a header
(list of column names) together with a list of positional rows; every cell is
a `Value` (null, text, decimal number, or date).  The pipeline stages of
`main` (date normalization, debit sign adjustment, optional account-name
translation, reshape) become `Except`-valued Lean functions that fail exactly
where polars would raise a column-not-found error; `split_dataframe_iter`,
the partition-by-account loop and the filename-collision loop become
executable Lean functions; writes become a trace of emitted output events.
-/

namespace MonarchConverter

/-- A single cell of a dataframe: polars' null, a UTF-8 string, a decimal
number (modelled as a rational), or a calendar date (year, month, day). -/
inductive Value where
  | null : Value
  | str : String → Value
  | num : Rat → Value
  | date : Nat → Nat → Nat → Value
deriving DecidableEq, Repr

/-- A polars DataFrame: named columns in a fixed order, rows positional. -/
structure DataFrame where
  header : List String
  rows : List (List Value)
deriving DecidableEq, Repr

/-- Index of the first column named `c` (length of the list when absent),
the positional lookup polars performs for `pl.col(c)`. -/
def colIdx : List String → String → Nat
  | [], _ => 0
  | h :: t, c => if h = c then 0 else colIdx t c + 1

/-- Cell of `df` at column `c`, row `i` (`none` if the column or row is absent). -/
def getCell (df : DataFrame) (c : String) (i : Nat) : Option Value :=
  if c ∈ df.header then
    match df.rows[i]? with
    | none => none
    | some r => some (r.getD (colIdx df.header c) Value.null)
  else none

/-! ### Date parsing: `pl.col("Date").str.strptime(pl.Date, "%m/%d/%Y", strict=False)` -/

/-- Gregorian leap-year test. -/
def isLeap (y : Nat) : Bool :=
  (y % 4 == 0 && y % 100 != 0) || y % 400 == 0

/-- Number of days in month `m` of year `y`. -/
def daysInMonth (y m : Nat) : Nat :=
  if m = 2 then (if isLeap y then 29 else 28)
  else if m = 4 ∨ m = 6 ∨ m = 9 ∨ m = 11 then 30
  else 31

/-- Greedily consume up to `w` further digits onto the accumulator
(chrono's bounded numeric scan). -/
def scanNumGo : Nat → Nat → List Char → Nat × List Char
  | 0, acc, cs => (acc, cs)
  | w + 1, acc, cs =>
    match cs with
    | [] => (acc, [])
    | c :: rest =>
      if c.isDigit then scanNumGo w (acc * 10 + (c.toNat - 48)) rest else (acc, cs)

/-- Chrono's numeric field scan: between 1 and `maxW` leading ASCII digits,
taken greedily; `none` when the input does not start with a digit. -/
def scanNum (maxW : Nat) (cs : List Char) : Option (Nat × List Char) :=
  match cs with
  | [] => none
  | c :: rest => if c.isDigit then some (scanNumGo (maxW - 1) (c.toNat - 48) rest) else none

/-- Parse a date with chrono's `%m/%d/%Y`: 1–2 digit month, literal `/`,
1–2 digit day, literal `/`, 1–4 digit year (all greedy), full consumption of
the input, then calendar validation; `none` models a `strict=False` parse
failure.  (Chrono's sign-prefixed years — `+`/`-` before the year digits —
are not modelled.) -/
def parseMMDDYYYY (s : String) : Option (Nat × Nat × Nat) :=
  match scanNum 2 s.data with
  | none => none
  | some (m, r1) =>
    match r1 with
    | '/' :: r2 =>
      match scanNum 2 r2 with
      | none => none
      | some (d, r3) =>
        match r3 with
        | '/' :: r4 =>
          match scanNum 4 r4 with
          | none => none
          | some (y, r5) =>
            if r5 = [] ∧ 1 ≤ m ∧ m ≤ 12 ∧ 1 ≤ d ∧ d ≤ daysInMonth y m then
              some (y, m, d)
            else none
        | _ => none
    | _ => none

/-- Cell-level effect of the non-strict strptime: a parseable string becomes
a date value, anything else becomes null. -/
def strptimeDate (v : Value) : Value :=
  match v with
  | Value.str s =>
    match parseMMDDYYYY s with
    | some ymd => Value.date ymd.1 ymd.2.1 ymd.2.2
    | none => Value.null
  | _ => Value.null

/-! ### The transform pipeline of `main` -/

/-- The pipeline stage at which a missing column makes the transform fail. -/
inductive Step where
  | dateNorm : Step
  | signAdj : Step
  | translate : Step
  | reshape : Step
deriving DecidableEq, Repr

/-- A failure of the transform: the stage that raised and the column named by
the error.  `dup = false` is polars' column-not-found error (the column is
missing); `dup = true` is polars' `DuplicateError` raised by the reshape's
rename when a target name already exists in the frame. -/
structure TError where
  step : Step
  col : String
  dup : Bool
deriving DecidableEq, Repr

/-- `df.with_columns(pl.col(c) ... .alias(c))`: rewrite column `c` cell-wise
with `f`; fails at stage `st` when `c` is absent. -/
def withColumnMapped (df : DataFrame) (c : String) (f : Value → Value) (st : Step) :
    Except TError DataFrame :=
  if c ∈ df.header then
    Except.ok ⟨df.header, df.rows.map fun r =>
      r.set (colIdx df.header c) (f (r.getD (colIdx df.header c) Value.null))⟩
  else Except.error ⟨st, c, false⟩

/-- Negation of an Amount cell (`pl.col("Amount") * -1`); non-numeric cells
(null) stay null/unchanged. -/
def negVal (v : Value) : Value :=
  match v with
  | Value.num q => Value.num (-q)
  | v => v

/-- Stage 1 of `main`: date normalization. -/
def dateNormStep (df : DataFrame) : Except TError DataFrame :=
  withColumnMapped df "Date" strptimeDate Step.dateNorm

/-- Stage 2 of `main`: negate `Amount` on rows whose `Transaction Type` is
exactly the string `"debit"`. -/
def signAdjStep (df : DataFrame) : Except TError DataFrame :=
  if "Transaction Type" ∈ df.header then
    if "Amount" ∈ df.header then
      Except.ok ⟨df.header, df.rows.map fun r =>
        if r.getD (colIdx df.header "Transaction Type") Value.null = Value.str "debit" then
          r.set (colIdx df.header "Amount")
            (negVal (r.getD (colIdx df.header "Amount") Value.null))
        else r⟩
    else Except.error ⟨Step.signAdj, "Amount", false⟩
  else Except.error ⟨Step.signAdj, "Transaction Type", false⟩

/-- Last-wins lookup in an association list: the Python dict built from the
translation file keeps the last occurrence of a repeated `Mint` key. -/
def dictLookup (m : List (String × String)) (s : String) : Option String :=
  match m with
  | [] => none
  | p :: rest =>
    match dictLookup rest s with
    | some t => some t
    | none => if p.1 = s then some p.2 else none

/-- Cell-level effect of `pl.col("Account Name").replace(mapping)`: a single
simultaneous substitution, values absent from the mapping pass through. -/
def applyTranslate (m : List (String × String)) (v : Value) : Value :=
  match v with
  | Value.str s =>
    match dictLookup m s with
    | some t => Value.str t
    | none => Value.str s
  | v => v

/-- Stage 3 of `main`: account-name translation, run only when a translation
file was supplied (`none` models the absent/empty path). -/
def translateStep (df : DataFrame) (m : Option (List (String × String))) :
    Except TError DataFrame :=
  match m with
  | none => Except.ok df
  | some mm => withColumnMapped df "Account Name" (applyTranslate mm) Step.translate

/-- The column renaming of the reshape stage. -/
def renameFn (h : String) : String :=
  if h = "Description" then "Merchant"
  else if h = "Original Description" then "Original Statement"
  else if h = "Account Name" then "Account"
  else if h = "Labels" then "Tags"
  else h

/-- The ordered output schema passed to `.select(...)`. -/
def outputCols : List String :=
  ["Date", "Merchant", "Category", "Account", "Original Statement", "Notes", "Amount", "Tags"]

/-- Indices of the requested columns in `header`, or the first missing name. -/
def selectIdxs (header : List String) : List String → Except String (List Nat)
  | [] => Except.ok []
  | c :: cs =>
    if c ∈ header then
      match selectIdxs header cs with
      | Except.ok js => Except.ok (colIdx header c :: js)
      | Except.error e => Except.error e
    else Except.error c

/-- Header after `.drop("Transaction Type")`. -/
def droppedHeader (H : List String) : List String :=
  H.eraseIdx (colIdx H "Transaction Type")

/-- Rows after `.drop("Transaction Type")`. -/
def droppedRows (df : DataFrame) : List (List Value) :=
  df.rows.map fun r => r.eraseIdx (colIdx df.header "Transaction Type")

/-- Header after the `.rename({...})` of the reshape stage. -/
def renamedHeader (H : List String) : List String :=
  (droppedHeader H).map renameFn

/-- The targets of the rename map. -/
def renameTargets : List String :=
  ["Merchant", "Original Statement", "Account", "Tags"]

/-- Stage 4 of `main`: drop `Transaction Type`, rename the four source
columns, and project to the ordered output schema.  The rename first checks
that its keys exist (polars' column-not-found error) and then that no target
name is already a column of the frame — renaming onto an existing name makes
polars raise a `DuplicateError` naming that target, modelled here by a
`dup = true` error. -/
def reshapeStep (df : DataFrame) : Except TError DataFrame :=
  if "Transaction Type" ∈ df.header then
    if "Description" ∈ droppedHeader df.header then
      if "Original Description" ∈ droppedHeader df.header then
        if "Account Name" ∈ droppedHeader df.header then
          if "Labels" ∈ droppedHeader df.header then
            if "Merchant" ∈ droppedHeader df.header then
              Except.error ⟨Step.reshape, "Merchant", true⟩
            else if "Original Statement" ∈ droppedHeader df.header then
              Except.error ⟨Step.reshape, "Original Statement", true⟩
            else if "Account" ∈ droppedHeader df.header then
              Except.error ⟨Step.reshape, "Account", true⟩
            else if "Tags" ∈ droppedHeader df.header then
              Except.error ⟨Step.reshape, "Tags", true⟩
            else
              match selectIdxs (renamedHeader df.header) outputCols with
              | Except.ok js =>
                Except.ok ⟨outputCols,
                  (droppedRows df).map fun r => js.map fun j => r.getD j Value.null⟩
              | Except.error c => Except.error ⟨Step.reshape, c, false⟩
          else Except.error ⟨Step.reshape, "Labels", false⟩
        else Except.error ⟨Step.reshape, "Account Name", false⟩
      else Except.error ⟨Step.reshape, "Original Description", false⟩
    else Except.error ⟨Step.reshape, "Description", false⟩
  else Except.error ⟨Step.reshape, "Transaction Type", false⟩

/-- The transform of `main`, stages in source order: date normalization,
sign adjustment, optional account translation, reshape. -/
def transformE (df : DataFrame) (m : Option (List (String × String))) :
    Except TError DataFrame :=
  match dateNormStep df with
  | Except.error e => Except.error e
  | Except.ok d1 =>
    match signAdjStep d1 with
    | Except.error e => Except.error e
    | Except.ok d2 =>
      match translateStep d2 m with
      | Except.error e => Except.error e
      | Except.ok d3 => reshapeStep d3

/-! ### Basic lemmas about `colIdx` -/

theorem mem_of_mem_cons_of_ne {a c : String} {t : List String}
    (h : c ∈ a :: t) (hac : a ≠ c) : c ∈ t := by
  rcases List.mem_cons.mp h with h1 | h1
  · exact absurd h1.symm hac
  · exact h1

theorem colIdx_lt_length {H : List String} {c : String} (h : c ∈ H) :
    colIdx H c < H.length := by
  induction H with
  | nil => cases h
  | cons a t ih =>
    by_cases hac : a = c
    · simp [colIdx, hac]
    · simpa [colIdx, hac] using ih (mem_of_mem_cons_of_ne h hac)

theorem getElem?_colIdx {H : List String} {c : String} (h : c ∈ H) :
    H[colIdx H c]? = some c := by
  induction H with
  | nil => cases h
  | cons a t ih =>
    by_cases hac : a = c
    · simp [colIdx, hac]
    · simpa [colIdx, hac] using ih (mem_of_mem_cons_of_ne h hac)

theorem colIdx_ne_of_ne {H : List String} {c c' : String} (hc : c ∈ H) (hc' : c' ∈ H)
    (hne : c ≠ c') : colIdx H c ≠ colIdx H c' := by
  intro heq
  have h1 := getElem?_colIdx hc
  have h2 := getElem?_colIdx hc'
  rw [heq, h2] at h1
  exact hne (Option.some.inj h1).symm

theorem colIdx_eraseIdx_of_lt {H : List String} {j : Nat} {c : String}
    (h : colIdx H c < j) : colIdx (H.eraseIdx j) c = colIdx H c := by
  induction H generalizing j with
  | nil => simp [List.eraseIdx]
  | cons a t ih =>
    by_cases hac : a = c
    · match j, h with
      | j + 1, _ => simp [List.eraseIdx, colIdx, hac]
    · simp only [colIdx, hac, if_false] at h ⊢
      match j, h with
      | j + 1, h =>
        simp only [List.eraseIdx, colIdx, hac, if_false]
        rw [ih (Nat.lt_of_succ_lt_succ h)]

theorem colIdx_eraseIdx_of_gt {H : List String} {j : Nat} {c : String}
    (hc : c ∈ H) (h : j < colIdx H c) :
    colIdx (H.eraseIdx j) c = colIdx H c - 1 := by
  induction H generalizing j with
  | nil => cases hc
  | cons a t ih =>
    by_cases hac : a = c
    · simp [colIdx, hac] at h
    · have hct : c ∈ t := mem_of_mem_cons_of_ne hc hac
      simp only [colIdx, hac, if_false] at h ⊢
      match j with
      | 0 => simp [List.eraseIdx]
      | j + 1 =>
        have hj : j < colIdx t c := Nat.lt_of_succ_lt_succ h
        have h1 : 1 ≤ colIdx t c := Nat.lt_of_le_of_lt (Nat.zero_le _) hj
        simp only [List.eraseIdx, colIdx, hac, if_false]
        rw [ih hct hj]
        omega

theorem mem_eraseIdx_of_ne {H : List String} {j : Nat} {c : String}
    (hc : c ∈ H) (hj : H[j]? ≠ some c) : c ∈ H.eraseIdx j := by
  induction H generalizing j with
  | nil => cases hc
  | cons a t ih =>
    match j with
    | 0 =>
      simp only [List.getElem?_cons_zero, ne_eq, Option.some.injEq] at hj
      have hct : c ∈ t := mem_of_mem_cons_of_ne hc fun h => hj h
      simpa [List.eraseIdx] using hct
    | j + 1 =>
      simp only [List.getElem?_cons_succ] at hj
      rcases List.mem_cons.mp hc with h' | h'
      · simp [List.eraseIdx, h']
      · have := ih h' hj
        simp [List.eraseIdx, this]

/-! ### Per-stage preservation lemmas -/

theorem withColumnMapped_ok {df : DataFrame} {c : String} {f : Value → Value} {st : Step}
    {d' : DataFrame} (h : withColumnMapped df c f st = Except.ok d') :
    d'.header = df.header ∧ d'.rows.length = df.rows.length := by
  unfold withColumnMapped at h
  split at h
  · cases h
    simp
  · cases h

theorem dateNorm_ok {df d' : DataFrame} (h : dateNormStep df = Except.ok d') :
    d'.header = df.header ∧ d'.rows.length = df.rows.length :=
  withColumnMapped_ok h

theorem signAdj_ok {df d' : DataFrame} (h : signAdjStep df = Except.ok d') :
    d'.header = df.header ∧ d'.rows.length = df.rows.length := by
  unfold signAdjStep at h
  split at h
  · split at h
    · cases h
      simp
    · cases h
  · cases h

theorem translate_ok {df d' : DataFrame} {m : Option (List (String × String))}
    (h : translateStep df m = Except.ok d') :
    d'.header = df.header ∧ d'.rows.length = df.rows.length := by
  unfold translateStep at h
  match m with
  | none => cases h; exact ⟨rfl, rfl⟩
  | some mm => exact withColumnMapped_ok h

theorem reshape_ok {df d' : DataFrame} (h : reshapeStep df = Except.ok d') :
    d'.header = outputCols ∧ d'.rows.length = df.rows.length := by
  unfold reshapeStep at h
  split at h <;> try cases h
  split at h <;> try cases h
  split at h <;> try cases h
  split at h <;> try cases h
  split at h <;> try cases h
  split at h <;> try cases h
  split at h <;> try cases h
  split at h <;> try cases h
  split at h <;> try cases h
  split at h <;> try cases h
  simp [droppedRows]

/-! ### Cell-level lemmas -/

theorem getD_set_self_f (r : List Value) (j : Nat) (f : Value → Value)
    (hf : f Value.null = Value.null) :
    (r.set j (f (r.getD j Value.null))).getD j Value.null = f (r.getD j Value.null) := by
  by_cases hj : j < r.length
  · simp [List.getD_eq_getElem?_getD, List.getElem?_set_self hj]
  · have hle : r.length ≤ j := Nat.le_of_not_lt hj
    rw [List.set_eq_of_length_le hle]
    simp [List.getD_eq_getElem?_getD, List.getElem?_eq_none hle, hf]

theorem getD_set_ne (r : List Value) {j j' : Nat} (x : Value) (h : j ≠ j') (d : Value) :
    (r.set j x).getD j' d = r.getD j' d := by
  simp [List.getD_eq_getElem?_getD, List.getElem?_set_ne h]

theorem withColumnMapped_mem {df : DataFrame} {c : String} {f : Value → Value} {st : Step}
    {d' : DataFrame} (h : withColumnMapped df c f st = Except.ok d') : c ∈ df.header := by
  unfold withColumnMapped at h
  split at h
  · assumption
  · cases h

theorem withColumnMapped_cell_same {df : DataFrame} {c : String} {f : Value → Value} {st : Step}
    {d' : DataFrame} (h : withColumnMapped df c f st = Except.ok d')
    (hf : f Value.null = Value.null) (i : Nat) :
    getCell d' c i = (getCell df c i).map f := by
  have hc := withColumnMapped_mem h
  unfold withColumnMapped at h
  rw [if_pos hc] at h
  cases h
  unfold getCell
  simp only [hc, if_pos, List.getElem?_map]
  cases hr : df.rows[i]? with
  | none => simp
  | some r =>
    simp only [Option.map_some', Option.some.injEq]
    exact getD_set_self_f r _ f hf

theorem withColumnMapped_cell_other {df : DataFrame} {c : String} {f : Value → Value} {st : Step}
    {d' : DataFrame} (h : withColumnMapped df c f st = Except.ok d')
    {c' : String} (hne : c' ≠ c) (i : Nat) :
    getCell d' c' i = getCell df c' i := by
  have hc := withColumnMapped_mem h
  unfold withColumnMapped at h
  rw [if_pos hc] at h
  cases h
  unfold getCell
  by_cases hc' : c' ∈ df.header
  · simp only [hc', if_pos, List.getElem?_map]
    cases hr : df.rows[i]? with
    | none => simp
    | some r =>
      simp only [Option.map_some', Option.some.injEq]
      exact getD_set_ne r _ (colIdx_ne_of_ne hc hc' fun he => hne he.symm) _
  · simp [hc']

theorem signAdj_mem {df d' : DataFrame} (h : signAdjStep df = Except.ok d') :
    "Transaction Type" ∈ df.header ∧ "Amount" ∈ df.header := by
  unfold signAdjStep at h
  split at h
  · split at h
    · exact ⟨by assumption, by assumption⟩
    · cases h
  · cases h

theorem signAdj_cell_amount {df d' : DataFrame} (h : signAdjStep df = Except.ok d')
    (i : Nat) {tt a : Value}
    (htt : getCell df "Transaction Type" i = some tt)
    (ha : getCell df "Amount" i = some a) :
    getCell d' "Amount" i = some (if tt = Value.str "debit" then negVal a else a) := by
  obtain ⟨hT, hA⟩ := signAdj_mem h
  unfold signAdjStep at h
  rw [if_pos hT, if_pos hA] at h
  cases h
  unfold getCell at htt ha ⊢
  simp only [hT, hA, if_pos, List.getElem?_map] at htt ha ⊢
  cases hr : df.rows[i]? with
  | none => rw [hr] at htt; cases htt
  | some r =>
    rw [hr] at htt ha
    simp only [Option.map_some', Option.some.injEq] at htt ha ⊢
    subst htt
    subst ha
    by_cases hdeb : r.getD (colIdx df.header "Transaction Type") Value.null = Value.str "debit"
    · simp only [hdeb, if_pos]
      exact getD_set_self_f r _ negVal rfl
    · simp only [hdeb, if_neg, if_false]

theorem signAdj_cell_other {df d' : DataFrame} (h : signAdjStep df = Except.ok d')
    {c : String} (hne : c ≠ "Amount") (i : Nat) :
    getCell d' c i = getCell df c i := by
  obtain ⟨hT, hA⟩ := signAdj_mem h
  unfold signAdjStep at h
  rw [if_pos hT, if_pos hA] at h
  cases h
  unfold getCell
  by_cases hc : c ∈ df.header
  · simp only [hc, if_pos, List.getElem?_map]
    cases hr : df.rows[i]? with
    | none => rfl
    | some r =>
      simp only [Option.map_some', Option.some.injEq]
      by_cases hdeb : r.getD (colIdx df.header "Transaction Type") Value.null = Value.str "debit"
      · simp only [hdeb, if_pos]
        exact getD_set_ne r _ (colIdx_ne_of_ne hA hc fun he => hne he.symm) _
      · simp only [hdeb, if_neg, if_false]
  · simp [hc]

/-! ### The reshape stage cell-by-cell -/

/-- Source column feeding each output column. -/
def srcName (c : String) : String :=
  if c = "Merchant" then "Description"
  else if c = "Original Statement" then "Original Description"
  else if c = "Account" then "Account Name"
  else if c = "Tags" then "Labels"
  else c

/-- No output column of the reshape is already a column of the input header;
this is the well-formedness under which renaming is unambiguous (polars
itself refuses a rename that would duplicate a column name). -/
def ReshapeSafe (H : List String) : Prop :=
  "Merchant" ∉ H ∧ "Original Statement" ∉ H ∧ "Account" ∉ H ∧ "Tags" ∉ H

instance (H : List String) : Decidable (ReshapeSafe H) := by
  unfold ReshapeSafe
  infer_instance

theorem renameFn_srcName_iff {x c : String} (hc : c ∈ outputCols)
    (h1 : x ≠ "Merchant") (h2 : x ≠ "Original Statement") (h3 : x ≠ "Account")
    (h4 : x ≠ "Tags") : renameFn x = c ↔ x = srcName c := by
  fin_cases hc <;> simp only [renameFn, srcName] <;> split_ifs <;> simp_all

theorem renameFn_iff_of_safe {H : List String} (hW : ReshapeSafe H) {c : String}
    (hc : c ∈ outputCols) : ∀ x ∈ H, (renameFn x = c ↔ x = srcName c) := by
  intro x hx
  exact renameFn_srcName_iff hc (fun h => hW.1 (h ▸ hx)) (fun h => hW.2.1 (h ▸ hx))
    (fun h => hW.2.2.1 (h ▸ hx)) (fun h => hW.2.2.2 (h ▸ hx))

theorem colIdx_map_of_iff {f : String → String} {H : List String} {c c' : String}
    (hf : ∀ x ∈ H, (f x = c ↔ x = c')) : colIdx (H.map f) c = colIdx H c' := by
  induction H with
  | nil => rfl
  | cons a t ih =>
    have ha := hf a (List.mem_cons_self a t)
    by_cases h : a = c'
    · subst h
      simp [colIdx, ha.mpr rfl]
    · have hfa : ¬(f a = c) := fun hh => h (ha.mp hh)
      simp [colIdx, hfa, h, ih fun x hx => hf x (List.mem_cons_of_mem a hx)]

theorem mem_map_of_iff {f : String → String} {H : List String} {c c' : String}
    (hf : ∀ x ∈ H, (f x = c ↔ x = c')) : c ∈ H.map f ↔ c' ∈ H := by
  simp only [List.mem_map]
  constructor
  · rintro ⟨x, hx, hfx⟩
    exact (hf x hx).mp hfx ▸ hx
  · intro hc'
    exact ⟨c', hc', (hf c' hc').mpr rfl⟩

theorem getD_eraseIdx_colIdx {H : List String} {s b : String} (hs : s ∈ H) (hb : b ∈ H)
    (hne : s ≠ b) (r : List Value) :
    (r.eraseIdx (colIdx H b)).getD (colIdx (H.eraseIdx (colIdx H b)) s) Value.null
      = r.getD (colIdx H s) Value.null := by
  have hne' : colIdx H s ≠ colIdx H b := colIdx_ne_of_ne hs hb hne
  rcases Nat.lt_or_ge (colIdx H s) (colIdx H b) with hlt | hge
  · rw [colIdx_eraseIdx_of_lt hlt]
    simp [List.getD_eq_getElem?_getD, List.getElem?_eraseIdx_of_lt _ _ _ hlt]
  · have hgt : colIdx H b < colIdx H s := Nat.lt_of_le_of_ne hge fun he => hne' he.symm
    rw [colIdx_eraseIdx_of_gt hs hgt]
    have h1 : colIdx H b ≤ colIdx H s - 1 := by omega
    rw [List.getD_eq_getElem?_getD, List.getD_eq_getElem?_getD,
      List.getElem?_eraseIdx_of_ge _ _ _ h1]
    congr 2
    omega

theorem mem_droppedHeader {H : List String} {s : String} (hTT : "Transaction Type" ∈ H)
    (hs : s ∈ H) (hne : s ≠ "Transaction Type") : s ∈ droppedHeader H := by
  apply mem_eraseIdx_of_ne hs
  rw [getElem?_colIdx hTT]
  intro he
  exact hne (Option.some.inj he).symm

theorem mem_of_mem_droppedHeader {H : List String} {s : String}
    (hs : s ∈ droppedHeader H) : s ∈ H :=
  (List.eraseIdx_sublist H (colIdx H "Transaction Type")).subset hs

theorem selectIdxs_ok_spec {H cs : List String} {js : List Nat}
    (h : selectIdxs H cs = Except.ok js) :
    js = cs.map (colIdx H) ∧ ∀ c ∈ cs, c ∈ H := by
  induction cs generalizing js with
  | nil => cases h; exact ⟨rfl, by simp⟩
  | cons c cs ih =>
    unfold selectIdxs at h
    split at h
    · split at h
      · rename_i heq
        cases h
        obtain ⟨h1, h2⟩ := ih heq
        subst h1
        refine ⟨rfl, ?_⟩
        intro x hx
        rcases List.mem_cons.mp hx with rfl | hx
        · assumption
        · exact h2 x hx
      · cases h
    · cases h

theorem selectIdxs_error_spec {H cs : List String} {c : String}
    (h : selectIdxs H cs = Except.error c) : c ∈ cs ∧ c ∉ H := by
  induction cs with
  | nil => cases h
  | cons a cs ih =>
    unfold selectIdxs at h
    split at h
    · split at h
      · cases h
      · rename_i heq
        cases h
        obtain ⟨h1, h2⟩ := ih heq
        exact ⟨List.mem_cons_of_mem _ h1, h2⟩
    · cases h
      exact ⟨List.mem_cons_self _ _, by assumption⟩

theorem srcName_ne_TT {c : String} (hc : c ∈ outputCols) :
    srcName c ≠ "Transaction Type" := by
  fin_cases hc <;> simp [srcName]

theorem reshape_cell {df d' : DataFrame} (h : reshapeStep df = Except.ok d')
    (hW : ReshapeSafe df.header) {c : String} (hc : c ∈ outputCols) (i : Nat) :
    getCell d' c i = getCell df (srcName c) i := by
  unfold reshapeStep at h
  split at h <;> try cases h
  rename_i hTT
  split at h <;> try cases h
  split at h <;> try cases h
  split at h <;> try cases h
  split at h <;> try cases h
  split at h <;> try cases h
  split at h <;> try cases h
  split at h <;> try cases h
  split at h <;> try cases h
  split at h <;> try cases h
  rename_i js heq
  have hiff := renameFn_iff_of_safe hW hc
  have hiff1 : ∀ x ∈ droppedHeader df.header, (renameFn x = c ↔ x = srcName c) :=
    fun x hx => hiff x (mem_of_mem_droppedHeader hx)
  obtain ⟨hjs, hmem⟩ := selectIdxs_ok_spec heq
  have hch2 : c ∈ renamedHeader df.header := hmem c hc
  have hsrc1 : srcName c ∈ droppedHeader df.header :=
    (mem_map_of_iff hiff1).mp hch2
  have hsrcH : srcName c ∈ df.header := mem_of_mem_droppedHeader hsrc1
  have hcolmap : colIdx (renamedHeader df.header) c
      = colIdx (droppedHeader df.header) (srcName c) := colIdx_map_of_iff hiff1
  unfold getCell
  simp only [hc, hsrcH, if_pos]
  show (match ((droppedRows df).map fun r => js.map fun j => r.getD j Value.null)[i]? with
    | none => none
    | some r => some (r.getD (colIdx outputCols c) Value.null)) = _
  unfold droppedRows
  simp only [List.getElem?_map]
  cases hr : df.rows[i]? with
  | none => simp
  | some r =>
    simp only [Option.map_some', Option.some.injEq]
    have hk : colIdx outputCols c < outputCols.length := colIdx_lt_length hc
    have hjk : (js.map fun j => (r.eraseIdx (colIdx df.header "Transaction Type")).getD j
        Value.null)[colIdx outputCols c]?
        = some ((r.eraseIdx (colIdx df.header "Transaction Type")).getD
            (colIdx (renamedHeader df.header) c) Value.null) := by
      subst hjs
      simp only [List.getElem?_map, getElem?_colIdx hc, Option.map_some']
    rw [List.getD_eq_getElem?_getD, hjk]
    simp only [Option.getD_some]
    rw [hcolmap]
    exact getD_eraseIdx_colIdx hsrcH hTT (srcName_ne_TT hc) r

/-! ### Success characterization of the transform -/

/-- The input columns the pipeline reads; the transform succeeds exactly when
all of them are present. -/
def requiredCols : List String :=
  ["Date", "Transaction Type", "Amount", "Description", "Original Description",
   "Account Name", "Category", "Notes", "Labels"]

theorem renameFn_eq_plain_iff {x c : String}
    (h1 : c ≠ "Merchant") (h2 : c ≠ "Original Statement") (h3 : c ≠ "Account")
    (h4 : c ≠ "Tags") (h5 : c ≠ "Description") (h6 : c ≠ "Original Description")
    (h7 : c ≠ "Account Name") (h8 : c ≠ "Labels") : renameFn x = c ↔ x = c := by
  unfold renameFn
  split_ifs <;> constructor <;> intro hh <;> simp_all

theorem mem_droppedHeader_iff {H : List String} {s : String}
    (hTT : "Transaction Type" ∈ H) (hne : s ≠ "Transaction Type") :
    s ∈ droppedHeader H ↔ s ∈ H :=
  ⟨mem_of_mem_droppedHeader, fun hs => mem_droppedHeader hTT hs hne⟩

theorem selectIdxs_isOk_iff {H cs : List String} :
    (∃ js, selectIdxs H cs = Except.ok js) ↔ ∀ c ∈ cs, c ∈ H := by
  induction cs with
  | nil => simp [selectIdxs]
  | cons c cs ih =>
    unfold selectIdxs
    constructor
    · rintro ⟨js, hjs⟩
      split at hjs
      · intro x hx
        rcases List.mem_cons.mp hx with rfl | hx
        · assumption
        · split at hjs
          · rename_i heq
            exact ih.mp ⟨_, heq⟩ x hx
          · cases hjs
      · cases hjs
    · intro hall
      rw [if_pos (hall c (List.mem_cons_self c cs))]
      obtain ⟨js, hjs⟩ := ih.mpr fun x hx => hall x (List.mem_cons_of_mem c hx)
      exact ⟨colIdx H c :: js, by rw [hjs]⟩

theorem transformE_ok_elim {df : DataFrame} {m : Option (List (String × String))}
    {df' : DataFrame} (h : transformE df m = Except.ok df') :
    ∃ d1 d2 d3, dateNormStep df = Except.ok d1 ∧ signAdjStep d1 = Except.ok d2 ∧
      translateStep d2 m = Except.ok d3 ∧ reshapeStep d3 = Except.ok df' := by
  unfold transformE at h
  split at h <;> try cases h
  rename_i d1 h1
  split at h <;> try cases h
  rename_i d2 h2
  split at h <;> try cases h
  rename_i d3 h3
  exact ⟨d1, d2, d3, h1, h2, h3, h⟩

theorem dateNorm_isOk_iff {df : DataFrame} :
    (∃ d', dateNormStep df = Except.ok d') ↔ "Date" ∈ df.header := by
  unfold dateNormStep withColumnMapped
  by_cases hD : "Date" ∈ df.header <;> simp [hD]

theorem signAdj_isOk_iff {df : DataFrame} :
    (∃ d', signAdjStep df = Except.ok d') ↔
      "Transaction Type" ∈ df.header ∧ "Amount" ∈ df.header := by
  unfold signAdjStep
  by_cases hT : "Transaction Type" ∈ df.header <;>
    by_cases hA : "Amount" ∈ df.header <;> simp [hT, hA]

theorem translate_isOk_iff {df : DataFrame} {mm : List (String × String)} :
    (∃ d', translateStep df (some mm) = Except.ok d') ↔ "Account Name" ∈ df.header := by
  unfold translateStep withColumnMapped
  by_cases hA : "Account Name" ∈ df.header <;> simp [hA]

theorem mem_H_of_mem_renamed_plain {H : List String} {c : String}
    (h1 : c ≠ "Merchant") (h2 : c ≠ "Original Statement") (h3 : c ≠ "Account")
    (h4 : c ≠ "Tags") (h5 : c ≠ "Description") (h6 : c ≠ "Original Description")
    (h7 : c ≠ "Account Name") (h8 : c ≠ "Labels")
    (hc : c ∈ renamedHeader H) : c ∈ droppedHeader H :=
  (mem_map_of_iff fun _ _ => renameFn_eq_plain_iff h1 h2 h3 h4 h5 h6 h7 h8).mp hc

theorem reshape_isOk_iff {df : DataFrame} :
    (∃ d', reshapeStep df = Except.ok d') ↔
      (∀ c ∈ requiredCols, c ∈ df.header) ∧ ReshapeSafe df.header := by
  constructor
  · rintro ⟨d', h⟩
    unfold reshapeStep at h
    split at h <;> try cases h
    rename_i hTT
    split at h <;> try cases h
    rename_i hD1
    split at h <;> try cases h
    rename_i hO1
    split at h <;> try cases h
    rename_i hA1
    split at h <;> try cases h
    rename_i hL1
    split at h <;> try cases h
    rename_i hM1
    split at h <;> try cases h
    rename_i hOS1
    split at h <;> try cases h
    rename_i hAc1
    split at h <;> try cases h
    rename_i hTg1
    split at h <;> try cases h
    rename_i js heq
    have hsel := (selectIdxs_ok_spec heq).2
    refine ⟨?_, ?_⟩
    case refine_2 =>
      show "Merchant" ∉ df.header ∧ "Original Statement" ∉ df.header
        ∧ "Account" ∉ df.header ∧ "Tags" ∉ df.header
      exact ⟨fun hm => hM1 (mem_droppedHeader hTT hm (by decide)),
        fun hm => hOS1 (mem_droppedHeader hTT hm (by decide)),
        fun hm => hAc1 (mem_droppedHeader hTT hm (by decide)),
        fun hm => hTg1 (mem_droppedHeader hTT hm (by decide))⟩
    intro c hc
    fin_cases hc
    · exact mem_of_mem_droppedHeader (mem_H_of_mem_renamed_plain (by decide) (by decide)
        (by decide) (by decide) (by decide) (by decide) (by decide) (by decide)
        (hsel "Date" (by decide)))
    · exact hTT
    · exact mem_of_mem_droppedHeader (mem_H_of_mem_renamed_plain (by decide) (by decide)
        (by decide) (by decide) (by decide) (by decide) (by decide) (by decide)
        (hsel "Amount" (by decide)))
    · exact mem_of_mem_droppedHeader hD1
    · exact mem_of_mem_droppedHeader hO1
    · exact mem_of_mem_droppedHeader hA1
    · exact mem_of_mem_droppedHeader (mem_H_of_mem_renamed_plain (by decide) (by decide)
        (by decide) (by decide) (by decide) (by decide) (by decide) (by decide)
        (hsel "Category" (by decide)))
    · exact mem_of_mem_droppedHeader (mem_H_of_mem_renamed_plain (by decide) (by decide)
        (by decide) (by decide) (by decide) (by decide) (by decide) (by decide)
        (hsel "Notes" (by decide)))
    · exact mem_of_mem_droppedHeader hL1
  · rintro ⟨hall, hsafe⟩
    have hTT : "Transaction Type" ∈ df.header := hall _ (by decide)
    have hD1 : "Description" ∈ droppedHeader df.header :=
      mem_droppedHeader hTT (hall _ (by decide)) (by decide)
    have hO1 : "Original Description" ∈ droppedHeader df.header :=
      mem_droppedHeader hTT (hall _ (by decide)) (by decide)
    have hA1 : "Account Name" ∈ droppedHeader df.header :=
      mem_droppedHeader hTT (hall _ (by decide)) (by decide)
    have hL1 : "Labels" ∈ droppedHeader df.header :=
      mem_droppedHeader hTT (hall _ (by decide)) (by decide)
    have hM1 : "Merchant" ∉ droppedHeader df.header :=
      fun hm => hsafe.1 (mem_of_mem_droppedHeader hm)
    have hOS1 : "Original Statement" ∉ droppedHeader df.header :=
      fun hm => hsafe.2.1 (mem_of_mem_droppedHeader hm)
    have hAc1 : "Account" ∉ droppedHeader df.header :=
      fun hm => hsafe.2.2.1 (mem_of_mem_droppedHeader hm)
    have hTg1 : "Tags" ∉ droppedHeader df.header :=
      fun hm => hsafe.2.2.2 (mem_of_mem_droppedHeader hm)
    have hsel : ∀ c ∈ outputCols, c ∈ renamedHeader df.header := by
      intro c hc
      fin_cases hc
      · exact List.mem_map.mpr ⟨"Date",
          mem_droppedHeader hTT (hall _ (by decide)) (by decide), by decide⟩
      · exact List.mem_map.mpr ⟨"Description", hD1, by decide⟩
      · exact List.mem_map.mpr ⟨"Category",
          mem_droppedHeader hTT (hall _ (by decide)) (by decide), by decide⟩
      · exact List.mem_map.mpr ⟨"Account Name", hA1, by decide⟩
      · exact List.mem_map.mpr ⟨"Original Description", hO1, by decide⟩
      · exact List.mem_map.mpr ⟨"Notes",
          mem_droppedHeader hTT (hall _ (by decide)) (by decide), by decide⟩
      · exact List.mem_map.mpr ⟨"Amount",
          mem_droppedHeader hTT (hall _ (by decide)) (by decide), by decide⟩
      · exact List.mem_map.mpr ⟨"Labels", hL1, by decide⟩
    obtain ⟨js, hjs⟩ := selectIdxs_isOk_iff.mpr hsel
    refine ⟨⟨outputCols, (droppedRows df).map fun r => js.map fun j => r.getD j Value.null⟩, ?_⟩
    unfold reshapeStep
    rw [if_pos hTT, if_pos hD1, if_pos hO1, if_pos hA1, if_pos hL1,
      if_neg hM1, if_neg hOS1, if_neg hAc1, if_neg hTg1, hjs]

theorem transformE_isOk_iff {df : DataFrame} {m : Option (List (String × String))} :
    (∃ df', transformE df m = Except.ok df') ↔
      (∀ c ∈ requiredCols, c ∈ df.header) ∧ ReshapeSafe df.header := by
  constructor
  · rintro ⟨df', h⟩
    obtain ⟨d1, d2, d3, h1, h2, h3, h4⟩ := transformE_ok_elim h
    have e1 := (dateNorm_ok h1).1
    have e2 := (signAdj_ok h2).1
    have e3 := (translate_ok h3).1
    have := reshape_isOk_iff.mp ⟨df', h4⟩
    rwa [e3, e2, e1] at this
  · rintro ⟨hall, hsafe⟩
    obtain ⟨d1, h1⟩ := dateNorm_isOk_iff.mpr (hall _ (by decide))
    have e1 := (dateNorm_ok h1).1
    obtain ⟨d2, h2⟩ := signAdj_isOk_iff.mpr
      ⟨by rw [e1]; exact hall _ (by decide), by rw [e1]; exact hall _ (by decide)⟩
    have e2 := (signAdj_ok h2).1
    obtain ⟨d3, h3⟩ : ∃ d3, translateStep d2 m = Except.ok d3 := by
      match m with
      | none => exact ⟨d2, rfl⟩
      | some mm =>
        exact translate_isOk_iff.mpr (by rw [e2, e1]; exact hall _ (by decide))
    have e3 := (translate_ok h3).1
    obtain ⟨df', h4⟩ := reshape_isOk_iff.mpr
      ⟨by rw [e3, e2, e1]; exact hall, by rw [e3, e2, e1]; exact hsafe⟩
    refine ⟨df', ?_⟩
    unfold transformE
    simp only [h1, h2, h3, h4]

theorem dateNorm_cell_other {df d' : DataFrame} (h : dateNormStep df = Except.ok d')
    {c : String} (hne : c ≠ "Date") (i : Nat) : getCell d' c i = getCell df c i := by
  unfold dateNormStep at h
  exact withColumnMapped_cell_other h hne i

theorem translate_cell_other {df d' : DataFrame} {m : Option (List (String × String))}
    (h : translateStep df m = Except.ok d') {c : String} (hne : c ≠ "Account Name")
    (i : Nat) : getCell d' c i = getCell df c i := by
  unfold translateStep at h
  match m with
  | none => cases h; rfl
  | some mm => exact withColumnMapped_cell_other h hne i

theorem translate_cell_AN {df d' : DataFrame} {mm : List (String × String)}
    (h : translateStep df (some mm) = Except.ok d') (i : Nat) :
    getCell d' "Account Name" i = (getCell df "Account Name" i).map (applyTranslate mm) := by
  unfold translateStep at h
  exact withColumnMapped_cell_same h rfl i

theorem transformE_rows_length {df : DataFrame} {m : Option (List (String × String))}
    {df' : DataFrame} (h : transformE df m = Except.ok df') :
    df'.rows.length = df.rows.length := by
  unfold transformE at h
  split at h
  · cases h
  · rename_i d1 h1
    split at h
    · cases h
    · rename_i d2 h2
      split at h
      · cases h
      · rename_i d3 h3
        calc df'.rows.length = d3.rows.length := (reshape_ok h).2
          _ = d2.rows.length := (translate_ok h3).2
          _ = d1.rows.length := (signAdj_ok h2).2
          _ = df.rows.length := (dateNorm_ok h1).2

/-- C5: the transform preserves the number of rows exactly: it never drops
or adds a row, whatever the input table and whether or not an account
translation mapping is supplied. -/
theorem transform_preserves_row_count (df : DataFrame)
    (m : Option (List (String × String))) (df' : DataFrame)
    (h : transformE df m = Except.ok df') :
    df'.rows.length = df.rows.length :=
  transformE_rows_length h

/-- C6: for every row whose `Transaction Type` is exactly the text `"debit"`
(case-sensitive), the transformed `Amount` is `-1` times the input `Amount`;
every other row keeps its `Amount` unchanged. -/
theorem transform_debit_sign (df : DataFrame) (m : Option (List (String × String)))
    (df' : DataFrame) (h : transformE df m = Except.ok df')
    (hW : ReshapeSafe df.header) (i : Nat) (tt : Value) (a : Rat)
    (htt : getCell df "Transaction Type" i = some tt)
    (ha : getCell df "Amount" i = some (Value.num a)) :
    getCell df' "Amount" i = some (Value.num (if tt = Value.str "debit" then -a else a)) := by
  obtain ⟨d1, d2, d3, h1, h2, h3, h4⟩ := transformE_ok_elim h
  have e1 := (dateNorm_ok h1).1
  have e2 := (signAdj_ok h2).1
  have e3 := (translate_ok h3).1
  have hW3 : ReshapeSafe d3.header := by rw [e3, e2, e1]; exact hW
  have htt1 : getCell d1 "Transaction Type" i = some tt := by
    rw [dateNorm_cell_other h1 (by decide) i]; exact htt
  have ha1 : getCell d1 "Amount" i = some (Value.num a) := by
    rw [dateNorm_cell_other h1 (by decide) i]; exact ha
  have h2c := signAdj_cell_amount h2 i htt1 ha1
  have h3c : getCell d3 "Amount" i = getCell d2 "Amount" i :=
    translate_cell_other h3 (by decide) i
  have h4c : getCell df' "Amount" i = getCell d3 "Amount" i := by
    have hr := reshape_cell h4 hW3 (show "Amount" ∈ outputCols by decide) i
    rwa [show srcName "Amount" = "Amount" from by decide] at hr
  rw [h4c, h3c, h2c]
  by_cases hd : tt = Value.str "debit" <;> simp [hd, negVal]

theorem transform_account_cell {df df' : DataFrame} {mm : List (String × String)}
    {i : Nat} {s : String} (h : transformE df (some mm) = Except.ok df')
    (hW : ReshapeSafe df.header)
    (hA : getCell df "Account Name" i = some (Value.str s)) :
    getCell df' "Account" i = some (applyTranslate mm (Value.str s)) := by
  obtain ⟨d1, d2, d3, h1, h2, h3, h4⟩ := transformE_ok_elim h
  have e1 := (dateNorm_ok h1).1
  have e2 := (signAdj_ok h2).1
  have e3 := (translate_ok h3).1
  have hW3 : ReshapeSafe d3.header := by rw [e3, e2, e1]; exact hW
  have h1c : getCell d1 "Account Name" i = some (Value.str s) := by
    rw [dateNorm_cell_other h1 (by decide) i]; exact hA
  have h2c : getCell d2 "Account Name" i = some (Value.str s) := by
    rw [signAdj_cell_other h2 (by decide) i]; exact h1c
  have h3c : getCell d3 "Account Name" i = some (applyTranslate mm (Value.str s)) := by
    rw [translate_cell_AN h3 i, h2c]
    rfl
  have h4c : getCell df' "Account" i = getCell d3 "Account Name" i := by
    have hr := reshape_cell h4 hW3 (show "Account" ∈ outputCols by decide) i
    rwa [show srcName "Account" = "Account Name" from by decide] at hr
  rw [h4c, h3c]

theorem dictLookup_id {mm : List (String × String)} {s t : String}
    (hid : ∀ p ∈ mm, p.2 = p.1) (h : dictLookup mm s = some t) : t = s := by
  induction mm with
  | nil => cases h
  | cons p rest ih =>
    unfold dictLookup at h
    split at h
    · rename_i heq
      cases h
      exact ih (fun q hq => hid q (List.mem_cons_of_mem p hq)) heq
    · split at h
      · rename_i hp
        cases h
        rw [hid p (List.mem_cons_self p rest)]
        exact hp
      · cases h

theorem applyTranslate_id {mm : List (String × String)}
    (hid : ∀ p ∈ mm, p.2 = p.1) (v : Value) : applyTranslate mm v = v := by
  cases v with
  | null => rfl
  | num q => rfl
  | date y mo d => rfl
  | str s =>
    cases hl : dictLookup mm s with
    | none => simp only [applyTranslate, hl]
    | some t =>
      simp only [applyTranslate, hl]
      rw [dictLookup_id hid hl]

theorem set_getD_self (r : List Value) (j : Nat) :
    r.set j (r.getD j Value.null) = r := by
  by_cases hj : j < r.length
  · apply List.ext_getElem?
    intro n
    by_cases hn : j = n
    · subst hn
      rw [List.getElem?_set_self hj, List.getD_eq_getElem?_getD, List.getElem?_eq_getElem hj]
      rfl
    · rw [List.getElem?_set_ne hn]
  · rw [List.set_eq_of_length_le (Nat.le_of_not_lt hj)]

theorem translateStep_id {df : DataFrame} {mm : List (String × String)}
    (hid : ∀ p ∈ mm, p.2 = p.1) (hA : "Account Name" ∈ df.header) :
    translateStep df (some mm) = Except.ok df := by
  have hdef : translateStep df (some mm)
      = withColumnMapped df "Account Name" (applyTranslate mm) Step.translate := rfl
  rw [hdef]
  unfold withColumnMapped
  rw [if_pos hA]
  have hfun : (fun r : List Value =>
      r.set (colIdx df.header "Account Name")
        (applyTranslate mm (r.getD (colIdx df.header "Account Name") Value.null))) = id := by
    funext r
    rw [applyTranslate_id hid, set_getD_self]
    rfl
  rw [hfun, List.map_id]

theorem transformE_eq_reshape (m : Option (List (String × String)))
    {df d1 d2 d3 : DataFrame} (h1 : dateNormStep df = Except.ok d1)
    (h2 : signAdjStep d1 = Except.ok d2) (h3 : translateStep d2 m = Except.ok d3) :
    transformE df m = reshapeStep d3 := by
  unfold transformE
  simp only [h1, h2, h3]

theorem transformE_eq_error1 (m : Option (List (String × String)))
    {df : DataFrame} {e : TError} (h1 : dateNormStep df = Except.error e) :
    transformE df m = Except.error e := by
  unfold transformE
  simp only [h1]

theorem transformE_eq_error2 (m : Option (List (String × String)))
    {df d1 : DataFrame} {e : TError} (h1 : dateNormStep df = Except.ok d1)
    (h2 : signAdjStep d1 = Except.error e) :
    transformE df m = Except.error e := by
  unfold transformE
  simp only [h1, h2]

theorem transformE_eq_error3 (m : Option (List (String × String)))
    {df d1 d2 : DataFrame} {e : TError} (h1 : dateNormStep df = Except.ok d1)
    (h2 : signAdjStep d1 = Except.ok d2) (h3 : translateStep d2 m = Except.error e) :
    transformE df m = Except.error e := by
  unfold transformE
  simp only [h1, h2, h3]

/-- C8: transforming with an identity account-translation mapping yields
exactly the same transformed table as transforming with no mapping at all;
more generally, account names absent from a supplied mapping pass through
the translation step unchanged. -/
theorem transform_identity_translation :
    (∀ (df : DataFrame) (mm : List (String × String)) (t : DataFrame),
      (∀ p ∈ mm, p.2 = p.1) →
      (transformE df (some mm) = Except.ok t ↔ transformE df none = Except.ok t))
    ∧ (∀ (df df' : DataFrame) (mm : List (String × String)) (i : Nat) (s : String),
      transformE df (some mm) = Except.ok df' → ReshapeSafe df.header →
      getCell df "Account Name" i = some (Value.str s) → dictLookup mm s = none →
      getCell df' "Account" i = some (Value.str s)) := by
  constructor
  · intro df mm t hid
    cases hd1 : dateNormStep df with
    | error e => rw [transformE_eq_error1 (some mm) hd1, transformE_eq_error1 none hd1]
    | ok d1 =>
      cases hd2 : signAdjStep d1 with
      | error e =>
        rw [transformE_eq_error2 (some mm) hd1 hd2, transformE_eq_error2 none hd1 hd2]
      | ok d2 =>
        rw [transformE_eq_reshape none hd1 hd2 rfl]
        by_cases hA : "Account Name" ∈ d2.header
        · rw [transformE_eq_reshape (some mm) hd1 hd2 (translateStep_id hid hA)]
        · have hL : translateStep d2 (some mm)
              = Except.error ⟨Step.translate, "Account Name", false⟩ := by
            have hdef : translateStep d2 (some mm)
                = withColumnMapped d2 "Account Name" (applyTranslate mm) Step.translate := rfl
            rw [hdef]
            unfold withColumnMapped
            rw [if_neg hA]
          rw [transformE_eq_error3 (some mm) hd1 hd2 hL]
          constructor
          · intro hfalse
            cases hfalse
          · intro hR
            exfalso
            exact hA ((reshape_isOk_iff.mp ⟨t, hR⟩).1 _ (by decide))
  · intro df df' mm i s h hW hA hnone
    have hc := transform_account_cell h hW hA
    rw [hc]
    have hv : applyTranslate mm (Value.str s) = Value.str s := by
      simp only [applyTranslate, hnone]
    rw [hv]

/-- C10: account translation is a single simultaneous substitution over each
row's original `Account Name`: the translated value is exactly the mapping's
image of that one value (or the value itself when unmapped), never a chained
re-translation, and it depends only on that row's own original value. -/
theorem translate_not_chained (df df' : DataFrame) (mm : List (String × String))
    (i : Nat) (s : String) (h : transformE df (some mm) = Except.ok df')
    (hW : ReshapeSafe df.header)
    (hA : getCell df "Account Name" i = some (Value.str s)) :
    getCell df' "Account" i = some (match dictLookup mm s with
      | some t => Value.str t
      | none => Value.str s) := by
  have hc := transform_account_cell h hW hA
  rw [hc]
  rfl

/-! ### Error analysis of the transform (for C4) -/

theorem dateNorm_error {df : DataFrame} {e : TError}
    (h : dateNormStep df = Except.error e) :
    e = ⟨Step.dateNorm, "Date", false⟩ ∧ "Date" ∉ df.header := by
  unfold dateNormStep withColumnMapped at h
  split at h
  · cases h
  · cases h
    exact ⟨rfl, by assumption⟩

theorem signAdj_error {df : DataFrame} {e : TError}
    (h : signAdjStep df = Except.error e) :
    (e = ⟨Step.signAdj, "Transaction Type", false⟩ ∧ "Transaction Type" ∉ df.header)
    ∨ (e = ⟨Step.signAdj, "Amount", false⟩ ∧ "Amount" ∉ df.header) := by
  unfold signAdjStep at h
  split at h
  · split at h
    · cases h
    · cases h
      exact Or.inr ⟨rfl, by assumption⟩
  · cases h
    exact Or.inl ⟨rfl, by assumption⟩

theorem translate_error {df : DataFrame} {m : Option (List (String × String))} {e : TError}
    (h : translateStep df m = Except.error e) :
    e = ⟨Step.translate, "Account Name", false⟩ ∧ "Account Name" ∉ df.header ∧ m ≠ none := by
  match m with
  | none => cases h
  | some mm =>
    have hdef : translateStep df (some mm)
        = withColumnMapped df "Account Name" (applyTranslate mm) Step.translate := rfl
    rw [hdef] at h
    unfold withColumnMapped at h
    split at h
    · cases h
    · cases h
      exact ⟨rfl, by assumption, by simp⟩

theorem reshape_error {df : DataFrame} {e : TError}
    (h : reshapeStep df = Except.error e) :
    e.step = Step.reshape
    ∧ ((e.dup = false ∧ e.col ∈ requiredCols ∧ e.col ∉ df.header)
        ∨ (e.dup = true ∧ e.col ∈ renameTargets ∧ e.col ∈ df.header)) := by
  unfold reshapeStep at h
  split at h
  case isFalse hTT =>
    cases h
    exact ⟨rfl, Or.inl ⟨rfl, by decide, hTT⟩⟩
  case isTrue hTT =>
    split at h
    case isFalse hD =>
      cases h
      exact ⟨rfl, Or.inl ⟨rfl, by decide,
        fun hH => hD (mem_droppedHeader hTT hH (by decide))⟩⟩
    case isTrue hD =>
      split at h
      case isFalse hO =>
        cases h
        exact ⟨rfl, Or.inl ⟨rfl, by decide,
          fun hH => hO (mem_droppedHeader hTT hH (by decide))⟩⟩
      case isTrue hO =>
        split at h
        case isFalse hAN =>
          cases h
          exact ⟨rfl, Or.inl ⟨rfl, by decide,
            fun hH => hAN (mem_droppedHeader hTT hH (by decide))⟩⟩
        case isTrue hAN =>
          split at h
          case isFalse hL =>
            cases h
            exact ⟨rfl, Or.inl ⟨rfl, by decide,
              fun hH => hL (mem_droppedHeader hTT hH (by decide))⟩⟩
          case isTrue hL =>
            split at h
            case isTrue hM =>
              cases h
              exact ⟨rfl, Or.inr ⟨rfl, by decide, mem_of_mem_droppedHeader hM⟩⟩
            case isFalse hM =>
              split at h
              case isTrue hOS =>
                cases h
                exact ⟨rfl, Or.inr ⟨rfl, by decide, mem_of_mem_droppedHeader hOS⟩⟩
              case isFalse hOS =>
                split at h
                case isTrue hAc =>
                  cases h
                  exact ⟨rfl, Or.inr ⟨rfl, by decide, mem_of_mem_droppedHeader hAc⟩⟩
                case isFalse hAc =>
                  split at h
                  case isTrue hTg =>
                    cases h
                    exact ⟨rfl, Or.inr ⟨rfl, by decide, mem_of_mem_droppedHeader hTg⟩⟩
                  case isFalse hTg =>
                    split at h
                    · cases h
                    · rename_i c heq
                      cases h
                      obtain ⟨hc1, hc2⟩ := selectIdxs_error_spec heq
                      refine ⟨rfl, Or.inl ⟨rfl, ?_, ?_⟩⟩
                      · fin_cases hc1 <;> first
                          | decide
                          | exact absurd (List.mem_map.mpr
                              ⟨"Description", hD, by decide⟩) hc2
                          | exact absurd (List.mem_map.mpr
                              ⟨"Account Name", hAN, by decide⟩) hc2
                          | exact absurd (List.mem_map.mpr
                              ⟨"Original Description", hO, by decide⟩) hc2
                          | exact absurd (List.mem_map.mpr
                              ⟨"Labels", hL, by decide⟩) hc2
                      · fin_cases hc1 <;> first
                          | exact fun hH => hc2 (List.mem_map.mpr
                              ⟨_, mem_droppedHeader hTT hH (by decide), by decide⟩)
                          | exact absurd (List.mem_map.mpr
                              ⟨"Description", hD, by decide⟩) hc2
                          | exact absurd (List.mem_map.mpr
                              ⟨"Account Name", hAN, by decide⟩) hc2
                          | exact absurd (List.mem_map.mpr
                              ⟨"Original Description", hO, by decide⟩) hc2
                          | exact absurd (List.mem_map.mpr
                              ⟨"Labels", hL, by decide⟩) hc2

/-- The columns the pipeline references before it reaches the reshape stage. -/
def earlyCols : Option (List (String × String)) → List String
  | none => ["Date", "Transaction Type", "Amount"]
  | some _ => ["Date", "Transaction Type", "Amount", "Account Name"]

/-- C4 (amended): an input table missing a required source column makes the
transform fail — at the reshape step when every column referenced by an
earlier stage (`Date`; `Transaction Type` and `Amount`; `Account Name` when
a translation mapping is supplied) is present, and at that earlier stage
otherwise.  The error names a missing required column, except when the
header already contains one of the rename-target names (`Merchant`,
`Original Statement`, `Account`, `Tags`): then the reshape's rename instead
raises a duplicate-column error naming that pre-existing target. -/
theorem transform_missing_column (df : DataFrame) (m : Option (List (String × String)))
    (hmiss : ∃ c ∈ requiredCols, c ∉ df.header) :
    ∃ e, transformE df m = Except.error e
      ∧ ((∀ c ∈ earlyCols m, c ∈ df.header) → e.step = Step.reshape)
      ∧ ((e.dup = false ∧ e.col ∈ requiredCols ∧ e.col ∉ df.header)
          ∨ (e.dup = true ∧ e.step = Step.reshape
              ∧ e.col ∈ renameTargets ∧ e.col ∈ df.header))
      ∧ (ReshapeSafe df.header →
          e.dup = false ∧ e.col ∈ requiredCols ∧ e.col ∉ df.header) := by
  cases hres : transformE df m with
  | ok d' =>
    obtain ⟨c, hc1, hc2⟩ := hmiss
    exact absurd ((transformE_isOk_iff.mp ⟨d', hres⟩).1 c hc1) hc2
  | error e =>
    refine ⟨e, rfl, ?_⟩
    unfold transformE at hres
    split at hres
    · rename_i he
      cases hres
      obtain ⟨he1, he2⟩ := dateNorm_error he
      subst he1
      refine ⟨fun hearly => absurd ?_ he2, Or.inl ⟨rfl, by decide, he2⟩,
        fun _ => ⟨rfl, by decide, he2⟩⟩
      apply hearly
      cases m <;> simp [earlyCols]
    · rename_i d1 h1
      have e1 := (dateNorm_ok h1).1
      split at hres
      · rename_i he
        cases hres
        rcases signAdj_error he with ⟨he1, he2⟩ | ⟨he1, he2⟩ <;> subst he1 <;>
          rw [e1] at he2
        · refine ⟨fun hearly => absurd ?_ he2, Or.inl ⟨rfl, by decide, he2⟩,
            fun _ => ⟨rfl, by decide, he2⟩⟩
          apply hearly
          cases m <;> simp [earlyCols]
        · refine ⟨fun hearly => absurd ?_ he2, Or.inl ⟨rfl, by decide, he2⟩,
            fun _ => ⟨rfl, by decide, he2⟩⟩
          apply hearly
          cases m <;> simp [earlyCols]
      · rename_i d2 h2
        have e2 := (signAdj_ok h2).1
        split at hres
        · rename_i he
          cases hres
          obtain ⟨he1, he2, hm⟩ := translate_error he
          subst he1
          rw [e2, e1] at he2
          refine ⟨fun hearly => absurd ?_ he2, Or.inl ⟨rfl, by decide, he2⟩,
            fun _ => ⟨rfl, by decide, he2⟩⟩
          apply hearly
          match m, hm with
          | some mm, _ => simp [earlyCols]
        · rename_i d3 h3
          have e3 := (translate_ok h3).1
          obtain ⟨hs, hd⟩ := reshape_error hres
          rw [e3, e2, e1] at hd
          refine ⟨fun _ => hs, ?_, ?_⟩
          · rcases hd with hd | ⟨hdup, hcol, hmem⟩
            · exact Or.inl hd
            · exact Or.inr ⟨hdup, hs, hcol, hmem⟩
          · intro hsafe
            rcases hd with hd | ⟨-, hcol, hmem⟩
            · exact hd
            · exfalso
              simp only [renameTargets, List.mem_cons, List.not_mem_nil, or_false] at hcol
              rcases hcol with h | h | h | h <;> rw [h] at hmem
              · exact hsafe.1 hmem
              · exact hsafe.2.1 hmem
              · exact hsafe.2.2.1 hmem
              · exact hsafe.2.2.2 hmem

/-! ### Concrete sample tables and witnesses -/

/-- The full Mint-style input header. -/
def sampleHeader : List String :=
  ["Date", "Transaction Type", "Amount", "Description", "Original Description",
   "Account Name", "Category", "Notes", "Labels"]

/-- A two-row sample export: one debit with a parseable date, one credit with
an unparseable date. -/
def sampleDF : DataFrame :=
  ⟨sampleHeader,
   [[Value.str "03/15/2023", Value.str "debit", Value.num 50, Value.str "Coffee Shop",
     Value.str "COFFEE SHOP 123", Value.str "Checking", Value.str "Food", Value.null, Value.null],
    [Value.str "bad-date", Value.str "credit", Value.num 7, Value.str "Refund",
     Value.str "REFUND", Value.str "Savings!", Value.str "Misc", Value.null, Value.null]]⟩

/-- Input table with the `Notes` column missing. -/
def noNotesDF : DataFrame :=
  ⟨["Date", "Transaction Type", "Amount", "Description", "Original Description",
    "Account Name", "Category", "Labels"],
   [[Value.str "03/15/2023", Value.str "debit", Value.num 50, Value.str "Coffee Shop",
     Value.str "COFFEE SHOP 123", Value.str "Checking", Value.str "Food", Value.null]]⟩

/-- Input table with the `Date` column missing. -/
def noDateDF : DataFrame :=
  ⟨["Transaction Type", "Amount", "Description", "Original Description",
    "Account Name", "Category", "Notes", "Labels"],
   [[Value.str "debit", Value.num 50, Value.str "Coffee Shop",
     Value.str "COFFEE SHOP 123", Value.str "Checking", Value.str "Food", Value.null,
     Value.null]]⟩

/-- Input table missing `Notes` but already containing a `Merchant` column. -/
def dupMerchantDF : DataFrame :=
  ⟨["Date", "Transaction Type", "Amount", "Description", "Original Description",
    "Account Name", "Category", "Labels", "Merchant"],
   [[Value.str "03/15/2023", Value.str "debit", Value.num 50, Value.str "Coffee Shop",
     Value.str "COFFEE SHOP 123", Value.str "Checking", Value.str "Food", Value.null,
     Value.str "Old Merchant"]]⟩

/-- Two accounts "A" and "B" for the chained-mapping experiment. -/
def chainDF : DataFrame :=
  ⟨sampleHeader,
   [[Value.str "03/15/2023", Value.str "debit", Value.num 50, Value.str "Coffee Shop",
     Value.str "X", Value.str "A", Value.str "Food", Value.null, Value.null],
    [Value.str "03/16/2023", Value.str "credit", Value.num 9, Value.str "Shop",
     Value.str "Y", Value.str "B", Value.str "Food", Value.null, Value.null]]⟩

theorem transform_preserves_row_count_witness :
    ∃ d', transformE sampleDF none = Except.ok d'
      ∧ d'.rows.length = sampleDF.rows.length := by
  obtain ⟨d', hd⟩ := (@transformE_isOk_iff sampleDF none).mpr (by decide)
  exact ⟨d', hd, transform_preserves_row_count _ _ _ hd⟩

theorem transform_debit_sign_witness :
    ∃ d', transformE sampleDF none = Except.ok d'
      ∧ getCell d' "Amount" 0 = some (Value.num (-50))
      ∧ getCell d' "Amount" 1 = some (Value.num 7) := by
  obtain ⟨d', hd⟩ := (@transformE_isOk_iff sampleDF none).mpr (by decide)
  refine ⟨d', hd, ?_, ?_⟩
  · have h := transform_debit_sign sampleDF none d' hd (by decide) 0 (Value.str "debit") 50
      (by decide) (by decide)
    rw [if_pos (by decide)] at h
    exact h
  · have h := transform_debit_sign sampleDF none d' hd (by decide) 1 (Value.str "credit") 7
      (by decide) (by decide)
    rw [if_neg (by decide)] at h
    exact h

theorem transform_identity_translation_witness :
    ∃ d', transformE sampleDF none = Except.ok d'
      ∧ transformE sampleDF (some [("Checking", "Checking")]) = Except.ok d'
      ∧ getCell d' "Account" 1 = some (Value.str "Savings!") := by
  obtain ⟨d', hd⟩ := (@transformE_isOk_iff sampleDF none).mpr (by decide)
  have hidok : transformE sampleDF (some [("Checking", "Checking")]) = Except.ok d' :=
    (transform_identity_translation.1 sampleDF [("Checking", "Checking")] d'
      (by decide)).mpr hd
  refine ⟨d', hd, hidok, ?_⟩
  exact transform_identity_translation.2 sampleDF d' [("Checking", "Checking")] 1 "Savings!"
    hidok (by decide) (by decide) (by decide)

theorem translate_not_chained_witness :
    ∃ d', transformE chainDF (some [("A", "B"), ("B", "C")]) = Except.ok d'
      ∧ getCell d' "Account" 0 = some (Value.str "B")
      ∧ getCell d' "Account" 1 = some (Value.str "C") := by
  obtain ⟨d', hd⟩ := (@transformE_isOk_iff chainDF (some [("A", "B"), ("B", "C")])).mpr
    (by decide)
  refine ⟨d', hd, ?_, ?_⟩
  · have h := translate_not_chained chainDF d' [("A", "B"), ("B", "C")] 0 "A" hd
      (by decide) (by decide)
    rw [show (match dictLookup [("A", "B"), ("B", "C")] "A" with
      | some t => Value.str t
      | none => Value.str "A") = Value.str "B" from by decide] at h
    exact h
  · have h := translate_not_chained chainDF d' [("A", "B"), ("B", "C")] 1 "B" hd
      (by decide) (by decide)
    rw [show (match dictLookup [("A", "B"), ("B", "C")] "B" with
      | some t => Value.str t
      | none => Value.str "B") = Value.str "C" from by decide] at h
    exact h

theorem transform_missing_column_witness :
    ∃ e, transformE noNotesDF none = Except.error e
      ∧ e.step = Step.reshape ∧ e.dup = false ∧ e.col ∈ requiredCols := by
  obtain ⟨e, he, hstep, _, hsafe⟩ := transform_missing_column noNotesDF none (by decide)
  obtain ⟨hdup, hcol, _⟩ := hsafe (by decide)
  exact ⟨e, he, hstep (by decide), hdup, hcol⟩

/-- C4 counterexample: an input table missing the required `Date` column
fails at the date-normalization stage, not at the reshape step; and an input
table missing `Notes` but already containing a `Merchant` column fails with a
duplicate-column error naming `Merchant` — a column that is present in the
input — rather than an error naming a missing required column. -/
theorem transform_missing_column_counterexample :
    (transformE noDateDF none = Except.error ⟨Step.dateNorm, "Date", false⟩
      ∧ Step.dateNorm ≠ Step.reshape)
    ∧ (transformE dupMerchantDF none = Except.error ⟨Step.reshape, "Merchant", true⟩
      ∧ "Merchant" ∈ dupMerchantDF.header) :=
  ⟨⟨rfl, by decide⟩, rfl, by decide⟩

/-! ### The Partitioner/Writer of `main` -/

/-- Characters that survive slugification (after lowercasing). -/
def isSlugChar (c : Char) : Bool :=
  (decide ('a' ≤ c) && decide (c ≤ 'z')) || (decide ('0' ≤ c) && decide (c ≤ '9'))

/-- Maximal runs of slug characters, in order (the "words" of the slug). -/
def slugRunsGo : List Char → List Char → List (List Char)
  | [], acc => if acc.isEmpty then [] else [acc.reverse]
  | c :: cs, acc =>
    if isSlugChar c then slugRunsGo cs (c :: acc)
    else if acc.isEmpty then slugRunsGo cs [] else acc.reverse :: slugRunsGo cs []

/-- `slugify(account, lowercase=True, separator='-', max_length=50)`:
lowercase, collapse each non-alphanumeric run into a single hyphen, strip
leading/trailing hyphens, truncate to 50 characters.  Faithful on ASCII
input; python-slugify's unicode transliteration and its stripping of a
separator left dangling by the truncation are not modelled, so slug values
are treated as opaque where non-ASCII accounts could differ. -/
def slugify (s : String) : String :=
  ⟨(List.intercalate ['-'] (slugRunsGo (s.data.map Char.toLower) [])).take 50⟩

/-- Decimal digit character. -/
def digitChar (d : Nat) : Char := Char.ofNat (48 + d)

/-- Decimal digits of `n`, most significant first (`fuel` bounds recursion). -/
def natReprAux : Nat → Nat → List Char
  | 0, n => [digitChar n]
  | fuel + 1, n =>
    if n < 10 then [digitChar n] else natReprAux fuel (n / 10) ++ [digitChar (n % 10)]

/-- Decimal string of `n`, the f-string rendering of the chunk counter. -/
def natRepr (n : Nat) : String := ⟨natReprAux n n⟩

/-- `get_output_filename` of the source. -/
def get_output_filename (account : String) (fnameCnt : Nat) : String :=
  "monarch-" ++ slugify account ++ "-" ++ natRepr fnameCnt ++ ".csv"

/-- The `while out_filename in output_filenames` loop: starting at `cnt`,
return the first counter whose filename is not yet registered, probing at
most `fuel` times. -/
def findFresh (reg : List String) (account : String) : Nat → Nat → Nat
  | cnt, 0 => cnt
  | cnt, fuel + 1 =>
    if get_output_filename account cnt ∈ reg then findFresh reg account (cnt + 1) fuel
    else cnt

/-- One CSV file written by the Partitioner/Writer. -/
structure WriteEvent where
  account : Value
  cnt : Nat
  filename : String
  rows : List (List Value)
deriving DecidableEq, Repr

/-- The string `main` passes to `slugify` (the account key of the group). -/
def valueStr : Value → String
  | Value.str s => s
  | _ => ""

/-- The chunks of `split_dataframe_iter`: slices of `n` rows (`fuel` bounds
recursion; it is instantiated with the number of rows). -/
def chunksGo : Nat → List (List Value) → Nat → List (List (List Value))
  | 0, _, _ => []
  | _ + 1, [], _ => []
  | fuel + 1, l, n => l.take n :: chunksGo fuel (l.drop n) n

/-- `split_dataframe_iter`: raises `ValueError` on `max_rows <= 0` when first
iterated, otherwise yields slices of at most `max_rows` rows. -/
def split_dataframe_iter (rows : List (List Value)) (maxRows : Int) :
    Except String (List (List (List Value))) :=
  if maxRows ≤ 0 then Except.error "max_rows must be greater than 0"
  else Except.ok (chunksGo rows.length rows maxRows.toNat)

/-- Value of the grouping column in a row. -/
def rowKey (j : Nat) (r : List Value) : Value := r.getD j Value.null

/-- `df.partition_by("Account", as_dict=True)` with `maintain_order`: groups
keyed by first occurrence, each keeping its rows in original order (`fuel`
bounds recursion; it is instantiated with the number of rows). -/
def partitionGo : Nat → Nat → List (List Value) → List (Value × List (List Value))
  | 0, _, _ => []
  | _ + 1, _, [] => []
  | fuel + 1, j, r :: rest =>
    (rowKey j r, r :: rest.filter fun q => rowKey j q == rowKey j r) ::
      partitionGo fuel j (rest.filter fun q => !(rowKey j q == rowKey j r))

/-- All account groups of a dataframe, `j` the index of the account column. -/
def partitionByAccount (df : DataFrame) (j : Nat) : List (Value × List (List Value)) :=
  partitionGo df.rows.length j df.rows

/-- The inner loop of `main`: write the chunks of one account group,
generating collision-free filenames against the registry `reg`; the chunk
counter is not reset between chunks. -/
def processChunks (kv : Value) : List (List (List Value)) → Nat → List String →
    List WriteEvent × List String
  | [], _, reg => ([], reg)
  | ch :: rest, cnt, reg =>
    let c := findFresh reg (valueStr kv) cnt reg.length
    let fname := get_output_filename (valueStr kv) c
    let res := processChunks kv rest c (fname :: reg)
    (⟨kv, c, fname, ch⟩ :: res.1, res.2)

/-- The outer loop of `main` over account groups; the filename registry is
threaded through, the counter restarts at 1 for each account. -/
def processGroups : List (Value × List (List Value)) → Int → List String →
    Except String (List WriteEvent × List String)
  | [], _, reg => Except.ok ([], reg)
  | (k, g) :: rest, maxRows, reg =>
    match split_dataframe_iter g maxRows with
    | Except.error e => Except.error e
    | Except.ok chunks =>
      match processGroups rest maxRows (processChunks k chunks 1 reg).2 with
      | Except.error e => Except.error e
      | Except.ok (evs2, reg2) => Except.ok ((processChunks k chunks 1 reg).1 ++ evs2, reg2)

/-- The Partitioner/Writer: partition by `Account`, split each group,
generate collision-free filenames, emit one write event per chunk. -/
def write_partitions (df : DataFrame) (maxRows : Int) : Except String (List WriteEvent) :=
  if "Account" ∈ df.header then
    match processGroups (partitionByAccount df (colIdx df.header "Account")) maxRows [] with
    | Except.error e => Except.error e
    | Except.ok (evs, _) => Except.ok evs
  else Except.error "Account column not found"

/-! ### Filename counters are injective -/

/-- Numeric value of a decimal digit string, most significant digit first. -/
def digitsVal (cs : List Char) : Nat :=
  cs.foldl (fun a c => a * 10 + (c.toNat - 48)) 0

theorem digitsVal_append (cs : List Char) (c : Char) :
    digitsVal (cs ++ [c]) = digitsVal cs * 10 + (c.toNat - 48) := by
  unfold digitsVal
  rw [List.foldl_append]
  rfl

theorem digitChar_toNat {d : Nat} (h : d < 10) : (digitChar d).toNat - 48 = d := by
  interval_cases d <;> decide

theorem natReprAux_val : ∀ (f n : Nat), n < 10 ^ (f + 1) →
    digitsVal (natReprAux f n) = n := by
  intro f
  induction f with
  | zero =>
    intro n hn
    have h10 : n < 10 := by simpa using hn
    unfold natReprAux digitsVal
    simp [digitChar_toNat h10]
  | succ f ih =>
    intro n hn
    by_cases h10 : n < 10
    · unfold natReprAux digitsVal
      simp [h10, digitChar_toNat h10]
    · unfold natReprAux
      rw [if_neg h10, digitsVal_append]
      have hdiv : n / 10 < 10 ^ (f + 1) := by
        apply Nat.div_lt_of_lt_mul
        calc n < 10 ^ (f + 1 + 1) := hn
          _ = 10 * 10 ^ (f + 1) := by ring
      rw [ih (n / 10) hdiv, digitChar_toNat (Nat.mod_lt n (by omega))]
      omega

theorem digitsVal_natRepr (n : Nat) : digitsVal (natRepr n).data = n := by
  show digitsVal (natReprAux n n) = n
  apply natReprAux_val
  calc n < 10 ^ n := Nat.lt_pow_self (by norm_num) n
    _ ≤ 10 ^ (n + 1) := Nat.pow_le_pow_right (by norm_num) (Nat.le_succ n)

theorem natRepr_injective : Function.Injective natRepr := by
  intro a b h
  have := congrArg (fun s => digitsVal s.data) h
  simpa [digitsVal_natRepr] using this

theorem string_data_inj {s t : String} (h : s.data = t.data) : s = t := by
  cases s
  cases t
  exact congrArg String.mk h

theorem get_output_filename_inj {acct : String} {c1 c2 : Nat}
    (h : get_output_filename acct c1 = get_output_filename acct c2) : c1 = c2 := by
  apply natRepr_injective
  apply string_data_inj
  unfold get_output_filename at h
  have hd := congrArg String.data h
  simp only [String.data_append, List.append_assoc] at hd
  have h1 := List.append_cancel_left hd
  have h2 := List.append_cancel_left h1
  have h3 := List.append_cancel_left h2
  exact List.append_cancel_right h3

/-! ### The collision loop -/

theorem findFresh_ge (reg : List String) (account : String) :
    ∀ (fuel cnt : Nat), cnt ≤ findFresh reg account cnt fuel := by
  intro fuel
  induction fuel with
  | zero => intro cnt; exact Nat.le_refl _
  | succ fuel ih =>
    intro cnt
    unfold findFresh
    split
    · exact Nat.le_trans (Nat.le_succ cnt) (ih (cnt + 1))
    · exact Nat.le_refl _

theorem findFresh_spec (reg : List String) (account : String) :
    ∀ (fuel cnt : Nat),
      (∃ k, k ≤ fuel ∧ get_output_filename account (cnt + k) ∉ reg) →
      get_output_filename account (findFresh reg account cnt fuel) ∉ reg := by
  intro fuel
  induction fuel with
  | zero =>
    intro cnt ⟨k, hk, hfr⟩
    have hk0 : k = 0 := Nat.le_zero.mp hk
    subst hk0
    simpa [findFresh] using hfr
  | succ fuel ih =>
    intro cnt ⟨k, hk, hfr⟩
    unfold findFresh
    split
    · rename_i hmem
      apply ih
      match k, hfr with
      | 0, hfr => exact absurd hmem (by simpa using hfr)
      | k + 1, hfr =>
        exact ⟨k, Nat.lt_succ_iff.mp hk, by
          have : cnt + (k + 1) = cnt + 1 + k := by omega
          rwa [this] at hfr⟩
    · assumption

theorem exists_fresh (reg : List String) (account : String) (cnt : Nat) :
    ∃ k, k ≤ reg.length ∧ get_output_filename account (cnt + k) ∉ reg := by
  by_contra hcon
  push_neg at hcon
  have hinj : Function.Injective fun k => get_output_filename account (cnt + k) := by
    intro k1 k2 hk
    have := get_output_filename_inj hk
    omega
  have hnodup : ((List.range (reg.length + 1)).map
      fun k => get_output_filename account (cnt + k)).Nodup :=
    List.Nodup.map hinj (List.nodup_range _)
  have hsub : ((List.range (reg.length + 1)).map
      fun k => get_output_filename account (cnt + k)) ⊆ reg := by
    intro x hx
    obtain ⟨k, hk, rfl⟩ := List.mem_map.mp hx
    exact hcon k (Nat.lt_succ_iff.mp (List.mem_range.mp hk))
  have hlen := (List.subperm_of_subset hnodup hsub).length_le
  simp only [List.length_map, List.length_range] at hlen
  omega

theorem findFresh_fresh (reg : List String) (account : String) (cnt : Nat) :
    get_output_filename account (findFresh reg account cnt reg.length) ∉ reg :=
  findFresh_spec reg account reg.length cnt (exists_fresh reg account cnt)

/-! ### Chunks of `split_dataframe_iter` -/

theorem chunksGo_length_le (n : Nat) :
    ∀ (f : Nat) (l : List (List Value)), ∀ c ∈ chunksGo f l n, c.length ≤ n := by
  intro f
  induction f with
  | zero => intro l c hc; cases hc
  | succ f ih =>
    intro l c hc
    cases l with
    | nil => cases hc
    | cons r rest =>
      rcases List.mem_cons.mp hc with rfl | hc
      · rw [List.length_take]
        exact Nat.min_le_left _ _
      · exact ih _ c hc

theorem chunksGo_flatten {n : Nat} (hn : 0 < n) :
    ∀ (f : Nat) (l : List (List Value)), l.length ≤ f → (chunksGo f l n).flatten = l := by
  intro f
  induction f with
  | zero =>
    intro l hl
    have : l = [] := List.length_eq_zero.mp (Nat.le_zero.mp hl)
    subst this
    rfl
  | succ f ih =>
    intro l hl
    cases l with
    | nil => rfl
    | cons r rest =>
      show (List.take n (r :: rest) :: chunksGo f (List.drop n (r :: rest)) n).flatten
        = r :: rest
      rw [List.flatten_cons, ih _ ?hlen, List.take_append_drop]
      case hlen =>
        rw [List.length_drop]
        simp only [List.length_cons] at hl ⊢
        omega

/-! ### Partition lemmas -/

theorem partitionGo_group_eq : ∀ (f j : Nat) (rows : List (List Value)),
    rows.length ≤ f → ∀ k g, (k, g) ∈ partitionGo f j rows →
      g = rows.filter (fun r => rowKey j r == k) ∧ k ∈ rows.map (rowKey j) := by
  intro f
  induction f with
  | zero =>
    intro j rows hl k g hg
    have : rows = [] := List.length_eq_zero.mp (Nat.le_zero.mp hl)
    subst this
    cases hg
  | succ f ih =>
    intro j rows hl k g hg
    cases rows with
    | nil => cases hg
    | cons r rest =>
      rcases List.mem_cons.mp hg with heq | htail
      · obtain ⟨hk, hgg⟩ := Prod.mk.injEq .. ▸ heq
        subst hk
        constructor
        · rw [hgg, List.filter_cons_of_pos (by simp)]
        · exact List.mem_map.mpr ⟨r, List.mem_cons_self r rest, rfl⟩
      · have hlen : (rest.filter fun q => !(rowKey j q == rowKey j r)).length ≤ f := by
          have h1 := List.length_filter_le (fun q => !(rowKey j q == rowKey j r)) rest
          simp only [List.length_cons] at hl
          omega
        obtain ⟨hg1, hk1⟩ := ih j _ hlen k g htail
        obtain ⟨q, hq, hqk⟩ := List.mem_map.mp hk1
        have hqmem := List.mem_filter.mp hq
        have hkne : k ≠ rowKey j r := by
          intro hcon
          rw [← hqk] at hcon
          have := hqmem.2
          rw [hcon] at this
          simp at this
        constructor
        · rw [hg1, List.filter_filter, List.filter_cons_of_neg (by
            simp only [beq_iff_eq]
            exact fun hcon => hkne hcon.symm)]
          apply List.filter_congr
          intro q' _
          cases hq' : rowKey j q' == k with
          | true =>
            have : rowKey j q' = k := by simpa using hq'
            simp [this, hkne]
          | false => simp
        · exact List.mem_map.mpr ⟨q, List.mem_cons_of_mem r hqmem.1, hqk⟩

theorem partitionGo_keys_nodup : ∀ (f j : Nat) (rows : List (List Value)),
    rows.length ≤ f → ((partitionGo f j rows).map Prod.fst).Nodup := by
  intro f
  induction f with
  | zero =>
    intro j rows hl
    have : rows = [] := List.length_eq_zero.mp (Nat.le_zero.mp hl)
    subst this
    simp [partitionGo]
  | succ f ih =>
    intro j rows hl
    cases rows with
    | nil => simp [partitionGo]
    | cons r rest =>
      have hlen : (rest.filter fun q => !(rowKey j q == rowKey j r)).length ≤ f := by
        have h1 := List.length_filter_le (fun q => !(rowKey j q == rowKey j r)) rest
        simp only [List.length_cons] at hl
        omega
      refine List.nodup_cons.mpr ⟨?_, ih j _ hlen⟩
      intro hmem
      obtain ⟨p, hp, hpk⟩ := List.mem_map.mp hmem
      obtain ⟨-, hk1⟩ := partitionGo_group_eq f j _ hlen p.1 p.2 (by
        rw [show (p.1, p.2) = p from rfl]
        exact hp)
      obtain ⟨q, hq, hqk⟩ := List.mem_map.mp hk1
      have hqmem := List.mem_filter.mp hq
      have := hqmem.2
      rw [hqk, hpk] at this
      simp at this

theorem partitionByAccount_ne_nil {df : DataFrame} (j : Nat) (h : df.rows ≠ []) :
    partitionByAccount df j ≠ [] := by
  unfold partitionByAccount
  cases hr : df.rows with
  | nil => exact absurd hr h
  | cons r rest => simp [partitionGo]

/-! ### The chunk-writing loop -/

theorem processChunks_spec (kv : Value) :
    ∀ (chunks : List (List (List Value))) (cnt : Nat) (reg : List String),
      ((processChunks kv chunks cnt reg).2
          = ((processChunks kv chunks cnt reg).1.map fun e => e.filename).reverse ++ reg)
      ∧ (∀ f ∈ (processChunks kv chunks cnt reg).1.map fun e => e.filename, f ∉ reg)
      ∧ ((processChunks kv chunks cnt reg).1.map fun e => e.filename).Nodup
      ∧ ((processChunks kv chunks cnt reg).1.map fun e => e.rows) = chunks
      ∧ (∀ e ∈ (processChunks kv chunks cnt reg).1,
          e.account = kv ∧ e.filename = get_output_filename (valueStr kv) e.cnt ∧ cnt ≤ e.cnt)
      ∧ ((processChunks kv chunks cnt reg).1.map fun e => e.cnt).Pairwise (· < ·) := by
  intro chunks
  induction chunks with
  | nil =>
    intro cnt reg
    refine ⟨rfl, ?_, ?_, rfl, ?_, ?_⟩ <;> simp [processChunks]
  | cons ch rest ih =>
    intro cnt reg
    obtain ⟨ih1, ih2, ih3, ih4, ih5, ih6⟩ :=
      ih (findFresh reg (valueStr kv) cnt reg.length)
        (get_output_filename (valueStr kv) (findFresh reg (valueStr kv) cnt reg.length) :: reg)
    have hstep : processChunks kv (ch :: rest) cnt reg
        = (⟨kv, findFresh reg (valueStr kv) cnt reg.length,
              get_output_filename (valueStr kv) (findFresh reg (valueStr kv) cnt reg.length),
              ch⟩ ::
            (processChunks kv rest (findFresh reg (valueStr kv) cnt reg.length)
              (get_output_filename (valueStr kv)
                  (findFresh reg (valueStr kv) cnt reg.length) :: reg)).1,
           (processChunks kv rest (findFresh reg (valueStr kv) cnt reg.length)
             (get_output_filename (valueStr kv)
                 (findFresh reg (valueStr kv) cnt reg.length) :: reg)).2) := rfl
    rw [hstep]
    refine ⟨?_, ?_, ?_, ?_, ?_, ?_⟩
    · rw [ih1]
      simp [List.append_assoc]
    · intro f hf
      simp only [List.map_cons] at hf
      rcases List.mem_cons.mp hf with rfl | hf
      · exact findFresh_fresh reg (valueStr kv) cnt
      · exact fun hr => (ih2 f hf) (List.mem_cons_of_mem _ hr)
    · simp only [List.map_cons]
      refine List.nodup_cons.mpr ⟨?_, ih3⟩
      intro hmem
      exact (ih2 _ hmem) (List.mem_cons_self _ _)
    · simp only [List.map_cons]
      rw [ih4]
    · intro e he
      simp only at he
      rcases List.mem_cons.mp he with rfl | he
      · exact ⟨rfl, rfl, findFresh_ge reg (valueStr kv) reg.length cnt⟩
      · obtain ⟨ha, hb, hc⟩ := ih5 e he
        exact ⟨ha, hb, Nat.le_trans (findFresh_ge reg (valueStr kv) reg.length cnt) hc⟩
    · simp only [List.map_cons]
      refine List.pairwise_cons.mpr ⟨?_, ih6⟩
      intro x hx
      obtain ⟨e, he, rfl⟩ := List.mem_map.mp hx
      obtain ⟨-, hb, hc⟩ := ih5 e he
      have hne : e.filename ≠ get_output_filename (valueStr kv)
          (findFresh reg (valueStr kv) cnt reg.length) := fun hcon => by
        have := ih2 e.filename (List.mem_map.mpr ⟨e, he, rfl⟩)
        rw [hcon] at this
        exact this (List.mem_cons_self _ _)
      have : e.cnt ≠ findFresh reg (valueStr kv) cnt reg.length := fun hcon => by
        apply hne
        rw [hb, hcon]
      omega

/-! ### The group loop -/

theorem split_ok {g : List (List Value)} {maxRows : Int} {chunks : List (List (List Value))}
    (h : split_dataframe_iter g maxRows = Except.ok chunks) :
    0 < maxRows ∧ chunks = chunksGo g.length g maxRows.toNat := by
  unfold split_dataframe_iter at h
  split at h
  · cases h
  · cases h
    exact ⟨by omega, rfl⟩

theorem split_neg {g : List (List Value)} {maxRows : Int} (hmr : maxRows ≤ 0) :
    split_dataframe_iter g maxRows = Except.error "max_rows must be greater than 0" := by
  unfold split_dataframe_iter
  rw [if_pos hmr]

theorem processGroups_spec :
    ∀ (groups : List (Value × List (List Value))) (maxRows : Int) (reg : List String)
      (evs : List WriteEvent) (reg2 : List String),
      processGroups groups maxRows reg = Except.ok (evs, reg2) →
      (reg2 = (evs.map fun e => e.filename).reverse ++ reg)
      ∧ (∀ f ∈ evs.map fun e => e.filename, f ∉ reg)
      ∧ (evs.map fun e => e.filename).Nodup
      ∧ (∀ e ∈ evs, e.account ∈ groups.map Prod.fst)
      ∧ (∀ e ∈ evs, e.rows.length ≤ maxRows.toNat
            ∧ e.filename = get_output_filename (valueStr e.account) e.cnt)
      ∧ ((groups.map Prod.fst).Nodup → ∀ k g, (k, g) ∈ groups →
          ((evs.filter fun e => e.account == k).map fun e => e.rows)
              = chunksGo g.length g maxRows.toNat
          ∧ ((evs.filter fun e => e.account == k).map fun e => e.cnt).Pairwise (· < ·)) := by
  intro groups
  induction groups with
  | nil =>
    intro maxRows reg evs reg2 h
    cases h
    refine ⟨by simp, by simp, by simp, by simp, by simp, ?_⟩
    intro _ k g hg
    cases hg
  | cons kg rest ih =>
    intro maxRows reg evs reg2 h
    obtain ⟨k0, g0⟩ := kg
    unfold processGroups at h
    split at h
    · cases h
    · rename_i chunks hsp
      obtain ⟨hpos, hch⟩ := split_ok hsp
      split at h
      · cases h
      · rename_i evs2 reg2x hrest
        cases h
        obtain ⟨p1, p2, p3, p4, p5, p6⟩ := processChunks_spec k0 chunks 1 reg
        obtain ⟨i1, i2, i3, i4, i5, i6⟩ := ih maxRows _ evs2 _ hrest
        have hmemreg2 : ∀ f ∈ (processChunks k0 chunks 1 reg).1.map fun e => e.filename,
            f ∈ (processChunks k0 chunks 1 reg).2 := by
          intro f hf
          rw [p1]
          exact List.mem_append.mpr (Or.inl (List.mem_reverse.mpr hf))
        refine ⟨?_, ?_, ?_, ?_, ?_, ?_⟩
        · rw [i1, p1]
          simp [List.append_assoc]
        · intro f hf
          rw [List.map_append] at hf
          rcases List.mem_append.mp hf with hf | hf
          · exact p2 f hf
          · intro hr
            apply i2 f hf
            rw [p1]
            exact List.mem_append.mpr (Or.inr hr)
        · rw [List.map_append]
          refine List.Nodup.append p3 i3 ?_
          intro f hf1 hf2
          exact i2 f hf2 (hmemreg2 f hf1)
        · intro e he
          simp only [List.map_cons]
          rcases List.mem_append.mp he with he | he
          · rw [(p5 e he).1]
            exact List.mem_cons_self _ _
          · exact List.mem_cons_of_mem _ (i4 e he)
        · intro e he
          rcases List.mem_append.mp he with he | he
          · have hr : e.rows ∈ chunks := by
              rw [← p4]
              exact List.mem_map.mpr ⟨e, he, rfl⟩
            rw [hch] at hr
            refine ⟨chunksGo_length_le _ _ _ _ hr, ?_⟩
            rw [(p5 e he).2.1, (p5 e he).1]
          · exact i5 e he
        · intro hnodup k g hg
          simp only [List.map_cons] at hnodup
          have hk0notin := (List.nodup_cons.mp hnodup).1
          have hnodup' := (List.nodup_cons.mp hnodup).2
          rcases List.mem_cons.mp hg with heq | htail
          · injection heq with hkk hgg
            subst hkk
            subst hgg
            have hfilter1 : (processChunks k chunks 1 reg).1.filter
                (fun e => e.account == k) = (processChunks k chunks 1 reg).1 := by
              apply List.filter_eq_self.mpr
              intro e he
              rw [(p5 e he).1]
              simp
            have hfilter2 : evs2.filter (fun e => e.account == k) = [] := by
              apply List.filter_eq_nil_iff.mpr
              intro e he
              have := i4 e he
              intro hcon
              have heq2 : e.account = k := by simpa using hcon
              rw [heq2] at this
              exact hk0notin this
            rw [List.filter_append, hfilter1, hfilter2, List.append_nil]
            exact ⟨by rw [p4, hch], p6⟩
          · have hkne : k ≠ k0 := by
              intro hcon
              apply hk0notin
              subst hcon
              exact List.mem_map.mpr ⟨(k, g), htail, rfl⟩
            have hfilter1 : (processChunks k0 chunks 1 reg).1.filter
                (fun e => e.account == k) = [] := by
              apply List.filter_eq_nil_iff.mpr
              intro e he
              rw [(p5 e he).1]
              simp only [beq_iff_eq]
              exact fun hcon => hkne hcon.symm
            rw [List.filter_append, hfilter1, List.nil_append]
            exact i6 hnodup' k g htail

theorem write_partitions_ok_elim {df : DataFrame} {maxRows : Int} {evs : List WriteEvent}
    (h : write_partitions df maxRows = Except.ok evs) :
    "Account" ∈ df.header ∧ ∃ reg2,
      processGroups (partitionByAccount df (colIdx df.header "Account")) maxRows []
        = Except.ok (evs, reg2) := by
  unfold write_partitions at h
  split at h
  · split at h
    · cases h
    · rename_i evs0 reg0 heq
      cases h
      exact ⟨by assumption, reg0, heq⟩
  · cases h

theorem processGroups_pos {groups : List (Value × List (List Value))} {maxRows : Int}
    {reg : List String} {evs : List WriteEvent} {reg2 : List String}
    (h : processGroups groups maxRows reg = Except.ok (evs, reg2)) (hne : groups ≠ []) :
    0 < maxRows := by
  cases groups with
  | nil => exact absurd rfl hne
  | cons kg rest =>
    obtain ⟨k, g⟩ := kg
    unfold processGroups at h
    split at h
    · cases h
    · rename_i chunks hsp
      exact (split_ok hsp).1

theorem processGroups_neg {groups : List (Value × List (List Value))} {maxRows : Int}
    {reg : List String} (hmr : maxRows ≤ 0) (hne : groups ≠ []) :
    processGroups groups maxRows reg = Except.error "max_rows must be greater than 0" := by
  cases groups with
  | nil => exact absurd rfl hne
  | cons kg rest =>
    obtain ⟨k, g⟩ := kg
    unfold processGroups
    rw [split_neg hmr]

theorem write_partitions_neg {df : DataFrame} {maxRows : Int}
    (hA : "Account" ∈ df.header) (hmr : maxRows ≤ 0) (hne : df.rows ≠ []) :
    write_partitions df maxRows = Except.error "max_rows must be greater than 0" := by
  unfold write_partitions
  rw [if_pos hA, processGroups_neg hmr (partitionByAccount_ne_nil _ hne)]

/-- C1: every run of the Partitioner/Writer produces pairwise-distinct output
filenames: with N chunks written, N distinct filenames are generated and
registered, even when different account names slugify identically. -/
theorem write_partitions_filenames_nodup (df : DataFrame) (maxRows : Int)
    (evs : List WriteEvent) (h : write_partitions df maxRows = Except.ok evs) :
    (evs.map fun e => e.filename).Nodup := by
  obtain ⟨hA, reg2, heq⟩ := write_partitions_ok_elim h
  exact (processGroups_spec _ _ _ _ _ heq).2.2.1

/-- C2: every written chunk holds at most `max_rows` rows, and for each
account group, concatenating that account's chunks in emission order — an
order in which the filename indices strictly increase — reconstructs exactly
the group's rows, which are the table's rows with that account value in
their original order. -/
theorem write_partitions_chunks (df : DataFrame) (maxRows : Int) (evs : List WriteEvent)
    (h : write_partitions df maxRows = Except.ok evs)
    (k : Value) (g : List (List Value))
    (hg : (k, g) ∈ partitionByAccount df (colIdx df.header "Account")) :
    (∀ e ∈ evs, e.rows.length ≤ maxRows.toNat
        ∧ e.filename = get_output_filename (valueStr e.account) e.cnt)
    ∧ ((evs.filter fun e => e.account == k).map fun e => e.rows).flatten = g
    ∧ g = df.rows.filter (fun r => rowKey (colIdx df.header "Account") r == k)
    ∧ ((evs.filter fun e => e.account == k).map fun e => e.cnt).Pairwise (· < ·) := by
  obtain ⟨hA, reg2, heq⟩ := write_partitions_ok_elim h
  obtain ⟨-, -, -, -, hsize, hper⟩ := processGroups_spec _ _ _ _ _ heq
  have hkeys : ((partitionByAccount df (colIdx df.header "Account")).map Prod.fst).Nodup :=
    partitionGo_keys_nodup _ _ _ (Nat.le_refl _)
  obtain ⟨hrows, hpair⟩ := hper hkeys k g hg
  obtain ⟨hgeq, -⟩ := partitionGo_group_eq _ _ _ (Nat.le_refl _) k g hg
  have hpos : 0 < maxRows := processGroups_pos heq (by
    intro hc
    rw [hc] at hg
    cases hg)
  have h0 : 0 < maxRows.toNat := by omega
  refine ⟨hsize, ?_, hgeq, hpair⟩
  rw [hrows]
  exact chunksGo_flatten h0 _ _ (Nat.le_refl _)

/-! ### The mapping-helper emitter -/

/-- Type rank used by the polars sort order (nulls first). -/
def rank : Value → Nat
  | Value.null => 0
  | Value.num _ => 1
  | Value.date _ _ _ => 2
  | Value.str _ => 3

/-- Chronological key of a date. -/
def dateKey (y mo d : Nat) : Nat := y * 10000 + mo * 100 + d

/-- Lexicographic comparison of character lists by code point (the order in
which polars sorts UTF-8 strings). -/
def charsLe : List Char → List Char → Bool
  | [], _ => true
  | _ :: _, [] => false
  | c :: cs, d :: ds =>
    if c.toNat < d.toNat then true
    else if d.toNat < c.toNat then false
    else charsLe cs ds

/-- Lexicographic string comparison. -/
def strLe (a b : String) : Bool := charsLe a.data b.data

theorem charsLe_total : ∀ (x y : List Char), charsLe x y = true ∨ charsLe y x = true := by
  intro x
  induction x with
  | nil => intro y; exact Or.inl rfl
  | cons c cs ih =>
    intro y
    cases y with
    | nil => exact Or.inr rfl
    | cons d ds =>
      unfold charsLe
      by_cases h1 : c.toNat < d.toNat
      · left
        rw [if_pos h1]
      · by_cases h2 : d.toNat < c.toNat
        · right
          rw [if_pos h2]
        · rw [if_neg h1, if_neg h2, if_neg h2, if_neg h1]
          exact ih ds

theorem charsLe_trans : ∀ (x y z : List Char),
    charsLe x y = true → charsLe y z = true → charsLe x z = true := by
  intro x
  induction x with
  | nil => intro y z _ _; rfl
  | cons c cs ih =>
    intro y z hxy hyz
    cases y with
    | nil => cases hxy
    | cons d ds =>
      cases z with
      | nil => cases hyz
      | cons e es =>
        unfold charsLe at hxy hyz ⊢
        by_cases h1 : c.toNat < d.toNat
        · by_cases h2 : d.toNat < e.toNat
          · rw [if_pos (by omega : c.toNat < e.toNat)]
          · by_cases h3 : e.toNat < d.toNat
            · rw [if_neg h2, if_pos h3] at hyz
              cases hyz
            · rw [if_pos (by omega : c.toNat < e.toNat)]
        · by_cases h2 : d.toNat < c.toNat
          · rw [if_neg h1, if_pos h2] at hxy
            cases hxy
          · by_cases h3 : d.toNat < e.toNat
            · rw [if_pos (by omega : c.toNat < e.toNat)]
            · by_cases h4 : e.toNat < d.toNat
              · rw [if_neg h3, if_pos h4] at hyz
                cases hyz
              · rw [if_neg (by omega : ¬c.toNat < e.toNat),
                  if_neg (by omega : ¬e.toNat < c.toNat)]
                rw [if_neg h1, if_neg h2] at hxy
                rw [if_neg h3, if_neg h4] at hyz
                exact ih ds es hxy hyz

/-- The ascending sort order of `Series.sort()`: nulls first, values of one
type by their natural order (strings lexicographically). -/
def vleB (a b : Value) : Bool :=
  match a, b with
  | Value.num x, Value.num y => decide (x ≤ y)
  | Value.date y1 m1 d1, Value.date y2 m2 d2 => decide (dateKey y1 m1 d1 ≤ dateKey y2 m2 d2)
  | Value.str x, Value.str y => strLe x y
  | a, b => decide (rank a ≤ rank b)

/-- `vleB` as a relation. -/
def vleR (a b : Value) : Prop := vleB a b = true

instance : DecidableRel vleR := fun a b => inferInstanceAs (Decidable (vleB a b = true))

instance : IsTotal Value vleR where
  total := by
    intro a b
    cases a <;> cases b <;>
      simp only [vleR, vleB, rank, dateKey, strLe, decide_eq_true_eq] <;>
      first
        | exact le_total _ _
        | exact charsLe_total _ _
        | omega
        | simp

instance : IsTrans Value vleR where
  trans := by
    intro a b c hab hbc
    cases a <;> cases b <;> cases c <;>
      simp_all only [vleR, vleB, rank, dateKey, strLe, decide_eq_true_eq] <;>
      first
        | exact le_trans hab hbc
        | exact charsLe_trans _ _ _ hab hbc
        | omega
        | rfl

/-- Distinct values of a list, keeping the first occurrence of each
(the model of `Series.unique` before sorting). -/
def firstOccGo : List Value → List Value → List Value
  | [], acc => acc.reverse
  | v :: vs, acc => if v ∈ acc then firstOccGo vs acc else firstOccGo vs (v :: acc)

theorem firstOccGo_spec : ∀ (vs acc : List Value), acc.Nodup →
    (firstOccGo vs acc).Nodup ∧ ∀ v, (v ∈ firstOccGo vs acc ↔ v ∈ vs ∨ v ∈ acc) := by
  intro vs
  induction vs with
  | nil =>
    intro acc hacc
    refine ⟨by simpa [firstOccGo] using hacc, ?_⟩
    intro v
    simp [firstOccGo]
  | cons v vs ih =>
    intro acc hacc
    unfold firstOccGo
    by_cases hv : v ∈ acc
    · rw [if_pos hv]
      obtain ⟨hn, hm⟩ := ih acc hacc
      refine ⟨hn, ?_⟩
      intro x
      rw [hm x]
      constructor
      · rintro (hx | hx)
        · exact Or.inl (List.mem_cons_of_mem v hx)
        · exact Or.inr hx
      · rintro (hx | hx)
        · rcases List.mem_cons.mp hx with rfl | hx
          · exact Or.inr hv
          · exact Or.inl hx
        · exact Or.inr hx
    · rw [if_neg hv]
      obtain ⟨hn, hm⟩ := ih (v :: acc) (List.nodup_cons.mpr ⟨hv, hacc⟩)
      refine ⟨hn, ?_⟩
      intro x
      rw [hm x]
      constructor
      · rintro (hx | hx)
        · exact Or.inl (List.mem_cons_of_mem v hx)
        · rcases List.mem_cons.mp hx with rfl | hx
          · exact Or.inl (List.mem_cons_self _ _)
          · exact Or.inr hx
      · rintro (hx | hx)
        · rcases List.mem_cons.mp hx with rfl | hx
          · exact Or.inr (List.mem_cons_self _ _)
          · exact Or.inl hx
        · exact Or.inr (List.mem_cons_of_mem v hx)

/-- The dataframe `pl.DataFrame(map(lambda x: \x7b"Mint": x, "Monarch": x\x7d, names))`
builds: with no names the iterator is empty and the frame has no columns at
all, otherwise the two-column `Mint`/`Monarch` frame. -/
def mappingFrame (names : List Value) : DataFrame :=
  match names with
  | [] => ⟨[], []⟩
  | _ => ⟨["Mint", "Monarch"], names.map fun v => [v, v]⟩

theorem mappingFrame_ne_nil {names : List Value} (h : names ≠ []) :
    mappingFrame names = ⟨["Mint", "Monarch"], names.map fun v => [v, v]⟩ := by
  cases names with
  | nil => exact absurd rfl h
  | cons a l => rfl

/-- The mapping-helper emitter of `main`: distinct `Account` values, sorted
ascending, one `{Mint: x, Monarch: x}` row per value, assembled by
`mappingFrame` (so an empty table yields a column-less frame). -/
def write_mapping_helper (df : DataFrame) : Option DataFrame :=
  if "Account" ∈ df.header then
    some (mappingFrame
      (List.insertionSort vleR
        (firstOccGo (df.rows.map (rowKey (colIdx df.header "Account"))) [])))
  else none

/-- C9 (amended): for a table with at least one row, the mapping-helper file
has header `Mint,Monarch` and exactly one row per distinct `Account` value,
with no duplicates, sorted ascending, and with `Mint = Monarch = value` in
every row; for an empty table the emitter writes an empty, headerless file. -/
theorem write_mapping_helper_spec (df : DataFrame) (out : DataFrame)
    (h : write_mapping_helper df = some out) :
    (df.rows = [] → out = ⟨[], []⟩)
    ∧ (df.rows ≠ [] →
        out.header = ["Mint", "Monarch"]
        ∧ ∃ names : List Value,
            out.rows = names.map (fun v => [v, v])
            ∧ names.Nodup
            ∧ List.Sorted vleR names
            ∧ ∀ v : Value,
                v ∈ names ↔ v ∈ df.rows.map (rowKey (colIdx df.header "Account"))) := by
  unfold write_mapping_helper at h
  split at h
  · cases h
    constructor
    · intro hrows
      rw [hrows]
      rfl
    · intro hne
      have hvs : df.rows.map (rowKey (colIdx df.header "Account")) ≠ [] :=
        fun hc => hne (List.map_eq_nil_iff.mp hc)
      obtain ⟨v0, hv0⟩ := List.exists_mem_of_ne_nil _ hvs
      have hv0L : v0 ∈ List.insertionSort vleR
          (firstOccGo (df.rows.map (rowKey (colIdx df.header "Account"))) []) := by
        rw [(List.perm_insertionSort vleR _).mem_iff]
        exact ((firstOccGo_spec _ [] (by simp)).2 v0).mpr (Or.inl hv0)
      have hLne : List.insertionSort vleR
          (firstOccGo (df.rows.map (rowKey (colIdx df.header "Account"))) []) ≠ [] := by
        intro hc
        rw [hc] at hv0L
        cases hv0L
      rw [mappingFrame_ne_nil hLne]
      refine ⟨rfl, List.insertionSort vleR
        (firstOccGo (df.rows.map (rowKey (colIdx df.header "Account"))) []), rfl, ?_, ?_, ?_⟩
      · exact (List.perm_insertionSort vleR _).nodup_iff.mpr
          (firstOccGo_spec _ [] (by simp)).1
      · exact List.sorted_insertionSort vleR _
      · intro v
        rw [(List.perm_insertionSort vleR _).mem_iff]
        have := (firstOccGo_spec (df.rows.map (rowKey (colIdx df.header "Account"))) []
          (by simp)).2 v
        simpa using this
  · cases h

/-- C9 counterexample: for an empty (zero-row) transformed table the helper
frame has no columns, so the emitted CSV carries no `Mint,Monarch` header. -/
theorem write_mapping_helper_counterexample :
    write_mapping_helper ⟨outputCols, []⟩ = some ⟨[], []⟩
    ∧ (⟨[], []⟩ : DataFrame).header ≠ ["Mint", "Monarch"] :=
  ⟨rfl, by decide⟩

/-! ### The whole run of `main` (write trace and final error) -/

/-- One file written during a run. -/
inductive OutputFile where
  | helper : DataFrame → OutputFile
  | part : WriteEvent → OutputFile
deriving DecidableEq, Repr

/-- How a run can fail. -/
inductive RunError where
  | schema : TError → RunError
  | partitionFail : String → RunError
deriving DecidableEq, Repr

/-- The mapping-helper file written before the partition loop (none when the
helper path is not configured). -/
def helperOuts (df2 : DataFrame) (helperCfg : Bool) : List OutputFile :=
  if helperCfg then
    match write_mapping_helper df2 with
    | some m => [OutputFile.helper m]
    | none => []
  else []

/-- A full run of `main`: the files written, in write order, and the error
the run ends with (if any).  The helper file, when configured, is written
before the partition loop starts. -/
def mainRun (df : DataFrame) (translate : Option (List (String × String)))
    (helperCfg outputCfg : Bool) (maxRows : Int) : List OutputFile × Option RunError :=
  match transformE df translate with
  | Except.error e => ([], some (RunError.schema e))
  | Except.ok df2 =>
    if outputCfg then
      match write_partitions df2 maxRows with
      | Except.error msg => (helperOuts df2 helperCfg, some (RunError.partitionFail msg))
      | Except.ok evs => (helperOuts df2 helperCfg ++ evs.map OutputFile.part, none)
    else (helperOuts df2 helperCfg, none)

theorem helperOuts_no_part (df2 : DataFrame) (b : Bool) :
    ∀ o ∈ helperOuts df2 b, ∀ ev, o ≠ OutputFile.part ev := by
  unfold helperOuts
  cases b with
  | false => simp
  | true =>
    cases write_mapping_helper df2 with
    | none => simp
    | some mdf =>
      intro o ho ev
      rcases List.mem_cons.mp ho with rfl | hcon
      · intro hcon
        cases hcon
      · cases hcon

/-- C3 (amended): when the Partitioner/Writer is configured, `max_rows ≤ 0`
and the transformed table is nonempty, the run signals the `max_rows`
configuration error before any partition output file is written — but the
mapping-helper file, when configured, has already been written by then, and
for an empty transformed table no error is signaled at all. -/
theorem mainRun_config_error (df : DataFrame) (m : Option (List (String × String)))
    (helperCfg : Bool) (maxRows : Int) (df2 : DataFrame)
    (ht : transformE df m = Except.ok df2) (hne : df2.rows ≠ []) (hmr : maxRows ≤ 0) :
    (mainRun df m helperCfg true maxRows).2
        = some (RunError.partitionFail "max_rows must be greater than 0")
    ∧ ∀ o ∈ (mainRun df m helperCfg true maxRows).1, ∀ ev, o ≠ OutputFile.part ev := by
  have hA : "Account" ∈ df2.header := by
    obtain ⟨d1, d2, d3, h1, h2, h3, h4⟩ := transformE_ok_elim ht
    rw [(reshape_ok h4).1]
    decide
  have hwp := write_partitions_neg hA hmr hne
  unfold mainRun
  simp only [ht, hwp, if_true]
  exact ⟨by trivial, helperOuts_no_part df2 helperCfg⟩

/-- C3 counterexample: with a helper file configured, the helper is written
before the `max_rows` error is raised; and with an empty input table the
non-positive `max_rows` is never detected at all. -/
theorem mainRun_config_counterexample :
    (mainRun sampleDF none true true 0).1 ≠ []
    ∧ (mainRun sampleDF none true true 0).2
        = some (RunError.partitionFail "max_rows must be greater than 0")
    ∧ (mainRun ⟨sampleHeader, []⟩ none false true 0).2 = none := by
  refine ⟨?_, rfl, rfl⟩
  intro hcon
  have : (mainRun sampleDF none true true 0).1.length = 0 := by rw [hcon]; rfl
  rw [show (mainRun sampleDF none true true 0).1.length = 1 from rfl] at this
  cases this

theorem mainRun_config_error_witness :
    (mainRun sampleDF none true true 0).2
        = some (RunError.partitionFail "max_rows must be greater than 0")
    ∧ ∀ o ∈ (mainRun sampleDF none true true 0).1, ∀ ev, o ≠ OutputFile.part ev := by
  obtain ⟨df2, ht⟩ := (@transformE_isOk_iff sampleDF none).mpr (by decide)
  have hne : df2.rows ≠ [] := by
    have hl := transformE_rows_length ht
    intro hc
    rw [hc] at hl
    cases hl
  exact mainRun_config_error sampleDF none true 0 df2 ht hne (by omega)

/-! ### Witness data for the Partitioner/Writer -/

/-- Two account names with the same slug, plus a three-row table. -/
def partDF : DataFrame :=
  ⟨["Account", "Amount"],
   [[Value.str "My Bank!", Value.num 1],
    [Value.str "My Bank?", Value.num 2],
    [Value.str "My Bank!", Value.num 3]]⟩

/-- The write events `write_partitions partDF 2` produces. -/
def partEvs : List WriteEvent :=
  [⟨Value.str "My Bank!", 1, "monarch-my-bank-1.csv",
    [[Value.str "My Bank!", Value.num 1], [Value.str "My Bank!", Value.num 3]]⟩,
   ⟨Value.str "My Bank?", 2, "monarch-my-bank-2.csv",
    [[Value.str "My Bank?", Value.num 2]]⟩]

theorem write_partitions_filenames_nodup_witness :
    ∃ evs, write_partitions partDF 2 = Except.ok evs
      ∧ (evs.map fun e => e.filename).Nodup
      ∧ evs.map (fun e => e.filename)
          = ["monarch-my-bank-1.csv", "monarch-my-bank-2.csv"] := by
  have h : write_partitions partDF 2 = Except.ok partEvs := rfl
  exact ⟨partEvs, h, write_partitions_filenames_nodup partDF 2 partEvs h, rfl⟩

theorem write_partitions_chunks_witness :
    ∃ evs, write_partitions partDF 2 = Except.ok evs
      ∧ (∀ e ∈ evs, e.rows.length ≤ (2 : Int).toNat)
      ∧ ((evs.filter fun e => e.account == Value.str "My Bank!").map fun e => e.rows).flatten
          = partDF.rows.filter
              (fun r => rowKey (colIdx partDF.header "Account") r == Value.str "My Bank!") := by
  have h : write_partitions partDF 2 = Except.ok partEvs := rfl
  obtain ⟨h1, h2, -, -⟩ := write_partitions_chunks partDF 2 partEvs h
    (Value.str "My Bank!")
    (partDF.rows.filter fun r =>
      rowKey (colIdx partDF.header "Account") r == Value.str "My Bank!")
    (by decide)
  exact ⟨partEvs, h, fun e he => (h1 e he).1, h2⟩

/-- A small transformed-shape table for the mapping-helper witness. -/
def helperInDF : DataFrame :=
  ⟨["Account", "Amount"],
   [[Value.str "Checking", Value.num 1],
    [Value.str "Apple", Value.num 2],
    [Value.str "Checking", Value.num 3]]⟩

theorem write_mapping_helper_spec_witness :
    ∃ out, write_mapping_helper helperInDF = some out
      ∧ out.header = ["Mint", "Monarch"]
      ∧ out.rows = [[Value.str "Apple", Value.str "Apple"],
                    [Value.str "Checking", Value.str "Checking"]] := by
  have h : write_mapping_helper helperInDF = some
      ⟨["Mint", "Monarch"],
       [[Value.str "Apple", Value.str "Apple"],
        [Value.str "Checking", Value.str "Checking"]]⟩ := rfl
  exact ⟨_, h, ((write_mapping_helper_spec helperInDF _ h).2 (by decide)).1, rfl⟩

end MonarchConverter
